import Mathlib

/-!
Shallow embedding of `src/assets/models/bake_vertex_colors.py` and proofs
about it.  Text is modelled as `List Char`; each Python helper used by the
script (`str.strip`, `str.split`, `str.lower`, `float()`, `int()`, iteration
over the lines of a file) is given an executable Lean counterpart, and the
three parsing routines, the texture sampler and the core of `main` are
translated line by line.  Python exceptions are modelled by the `PyErr`
type and fallible code returns `Except PyErr _`.
-/

deriving instance DecidableEq for Except

namespace Bake

/-- Python whitespace characters, as recognized by `str.strip` / `str.split`. -/
def isWS (c : Char) : Bool :=
  c = ' ' || c = '\t' || c = '\n' || c = '\r' || c = '\x0b' || c = '\x0c'

/-- Negation of `isWS`, used for token extraction. -/
def notWS (c : Char) : Bool := !(isWS c)

/-- Remove leading whitespace (Python `str.lstrip`). -/
def lstrip (cs : List Char) : List Char := cs.dropWhile isWS

/-- Remove trailing whitespace (Python `str.rstrip`). -/
def rstrip : List Char → List Char
  | [] => []
  | c :: cs =>
    let r := rstrip cs
    if r.isEmpty then (if isWS c then [] else [c]) else c :: r

/-- Python `str.strip`: remove leading and trailing whitespace. -/
def strip (cs : List Char) : List Char := rstrip (lstrip cs)

/-- Python `str.lower` (ASCII is all the source ever feeds it). -/
def lower (cs : List Char) : List Char := cs.map Char.toLower

/-- One step of the whitespace splitter; builds token runs right to left. -/
def wordStep (c : Char) (acc : List (List Char)) : List (List Char) :=
  if isWS c then [] :: acc
  else
    match acc with
    | [] => [[c]]
    | t :: ts => (c :: t) :: ts

/-- Python `str.split()` with no separator: split on whitespace runs,
dropping empty tokens. -/
def splitWS (cs : List Char) : List (List Char) :=
  (cs.foldr wordStep []).filter (fun t => !t.isEmpty)

/-- Python `str.split(None, 1)`: at most one split, on whitespace; the
remainder keeps its trailing whitespace but loses the separator run.
Returns `[]` for all-whitespace input, `[tok]` when nothing follows the
first token, `[tok, rest]` otherwise. -/
def splitN1 (cs : List Char) : List (List Char) :=
  let t1 := cs.dropWhile isWS
  let tok := t1.takeWhile notWS
  let rest := (t1.dropWhile notWS).dropWhile isWS
  if tok.isEmpty then [] else if rest.isEmpty then [tok] else [tok, rest]

/-- Python `str.split("/")`: split on every slash, keeping empty pieces
(so `"5//2"` gives three pieces and `""` gives one empty piece). -/
def splitSlash : List Char → List (List Char)
  | [] => [[]]
  | c :: cs =>
    if c = '/' then [] :: splitSlash cs
    else
      match splitSlash cs with
      | [] => [[c]]
      | t :: ts => (c :: t) :: ts

/-- One step of the line splitter; keeps the `'\n'` terminators. -/
def lineStep (c : Char) (acc : List (List Char)) : List (List Char) :=
  if c = '\n' then [c] :: acc
  else
    match acc with
    | [] => [[c]]
    | l :: ls => (c :: l) :: ls

/-- Iterating `for line in f` over a text file: the list of lines, each
keeping its trailing `'\n'` (the final line may lack one). -/
def linesKeepEnds (cs : List Char) : List (List Char) := cs.foldr lineStep []

/-- Value of a string of decimal digits. -/
def digitsToNat (ds : List Char) : ℕ :=
  ds.foldl (fun a c => a * 10 + (c.toNat - 48)) 0

/-- Read an optional leading sign, returning the sign as `1` or `-1`. -/
def readSign : List Char → ℤ × List Char
  | [] => (1, [])
  | c :: r => if c = '+' then (1, r) else if c = '-' then (-1, r) else (1, c :: r)

/-- Exact value of a Python float literal, as `num * 10 ^ exp` with the
mantissa holding no factor of ten (and `⟨0, 0⟩` for zero), so that two
literals denoting the same decimal value get the same representative.
All numerals the script ever feeds `float()` are finite decimals. -/
structure PyFloat where
  num : ℤ
  exp : ℤ
  deriving DecidableEq

/-- Strip factors of ten from a positive number: `depow10 fuel m = (m', k)`
with `m = m' * 10 ^ k` and `10 ∤ m'`, provided `fuel ≥` the number of
factors (callers pass `m` itself, which always suffices). -/
def depow10 : ℕ → ℕ → ℕ × ℕ
  | 0, m => (m, 0)
  | f + 1, m =>
    if m % 10 = 0 && m ≠ 0 then
      let (m', k) := depow10 f (m / 10)
      (m', k + 1)
    else (m, 0)

/-- Build the canonical representative of `n * 10 ^ e`. -/
def mkPyFloat (n : ℤ) (e : ℤ) : PyFloat :=
  if n = 0 then ⟨0, 0⟩
  else
    let (m, k) := depow10 n.natAbs n.natAbs
    ⟨if n < 0 then -(m : ℤ) else (m : ℤ), e + (k : ℤ)⟩

/-- Rational value of a `PyFloat` (for documentation; the claims never
need to mix it with the sampler's rationals). -/
def PyFloat.toRat (f : PyFloat) : ℚ := (f.num : ℚ) * (10 : ℚ) ^ f.exp

/-- Python `float(s)` on the decimal literals the script can meet:
optional surrounding whitespace, optional sign, digits with an optional
point, optional exponent.  Exact decimal semantics (CPython parses the
same digit strings, then rounds to binary; no rounding happens here, as
machine floating point is out of scope).  `none` models `ValueError`.
(`inf`/`nan` and digit underscores are not modelled; no claim depends on
them.) -/
def pythonFloat (s : List Char) : Option PyFloat :=
  let t := strip s
  let (sg, t1) := readSign t
  let ip := t1.takeWhile Char.isDigit
  let t2 := t1.dropWhile Char.isDigit
  let (fp, t3) :=
    match t2 with
    | '.' :: r => (r.takeWhile Char.isDigit, r.dropWhile Char.isDigit)
    | _ => ([], t2)
  if ip.isEmpty && fp.isEmpty then none
  else
    let n : ℤ := sg * (digitsToNat (ip ++ fp) : ℤ)
    match t3 with
    | [] => some (mkPyFloat n (-(fp.length : ℤ)))
    | c :: r =>
      if c = 'e' || c = 'E' then
        let (esg, r1) := readSign r
        let ed := r1.takeWhile Char.isDigit
        let r2 := r1.dropWhile Char.isDigit
        if ed.isEmpty || !r2.isEmpty then none
        else some (mkPyFloat n (esg * (digitsToNat ed : ℤ) - (fp.length : ℤ)))
      else none

/-- Python `int(s)`: optional surrounding whitespace, optional sign,
decimal digits.  `none` models `ValueError`. -/
def pythonInt (s : List Char) : Option ℤ :=
  let t := strip s
  let (sg, t1) := readSign t
  let ds := t1.takeWhile Char.isDigit
  let r := t1.dropWhile Char.isDigit
  if ds.isEmpty || !r.isEmpty then none else some (sg * (digitsToNat ds : ℤ))

/-- Python `dict` assignment `d[k] = v` for an insertion-ordered
association list: replace the value in place if the key is present,
append otherwise. -/
def dictUpd (k v : List Char) : List (List Char × List Char) → List (List Char × List Char)
  | [] => [(k, v)]
  | (k', v') :: rest => if k' = k then (k, v) :: rest else (k', v') :: dictUpd k v rest

/-- Python `d.get(k)` on an association list. -/
def dictGet (k : List Char) (d : List (List Char × List Char)) : Option (List Char) :=
  (d.find? (fun p => p.1 == k)).map (fun p => p.2)

/-! ## OBJ mesh model (`Position` … `OBJ`, `parse_obj`, lines 11-104) -/

/-- Python exception kinds the script can raise (it defines no exception
classes of its own; in particular there is no `ParseError` or
`MissingResourceError` anywhere in the source). -/
inductive PyErr where
  | indexError
  | valueError
  | assertionError
  deriving DecidableEq

/-- `Position` dataclass (line 11). -/
structure Position where
  x : PyFloat
  y : PyFloat
  z : PyFloat
  deriving DecidableEq

/-- `TexCoord` dataclass (line 18). -/
structure TexCoord where
  u : PyFloat
  v : PyFloat
  deriving DecidableEq

/-- `Normal` dataclass (line 24). -/
structure Normal where
  x : PyFloat
  y : PyFloat
  z : PyFloat
  deriving DecidableEq

/-- `FaceVertex` dataclass (line 31); indices are 0-based and unchecked,
exactly as the parser stores them. -/
structure FaceVertex where
  position_index : Option ℤ := none
  texcoord_index : Option ℤ := none
  normal_index : Option ℤ := none
  deriving DecidableEq

/-- `Face` dataclass (line 38). -/
structure Face where
  vertices : List FaceVertex
  material : List Char
  line : List Char := []
  deriving DecidableEq

/-- Kind tag of a regenerable shadow line. -/
inductive LineKind where
  | v
  | vt
  | vn
  deriving DecidableEq

/-- An entry of `OBJ.out_lines`: either a `(kind, index)` tuple standing
for a regenerable line, or the raw line kept verbatim. -/
inductive OutLine where
  | tag (k : LineKind) (idx : ℕ)
  | verbatim (s : List Char)
  deriving DecidableEq

/-- `OBJ` dataclass (line 45). -/
structure OBJ where
  positions : List Position := []
  texcoords : List TexCoord := []
  normals : List Normal := []
  faces : List Face := []
  out_lines : List OutLine := []
  current_material : List Char := []
  deriving DecidableEq

/-- `parts[i]` followed by `float(…)`: `IndexError` when the index is
missing, `ValueError` when the token is not a numeral. -/
def getFloatAt (parts : List (List Char)) (i : ℕ) : Except PyErr PyFloat :=
  match parts.get? i with
  | none => .error .indexError
  | some tok =>
    match pythonFloat tok with
    | none => .error .valueError
    | some q => .ok q

/-- Body of the `v ` branch (lines 63-64): three floats from
`parts[1] … parts[3]` of the stripped line. -/
def vBody (ls : List Char) : Except PyErr Position :=
  let parts := splitWS ls
  match getFloatAt parts 1 with
  | .error e => .error e
  | .ok x =>
    match getFloatAt parts 2 with
    | .error e => .error e
    | .ok y =>
      match getFloatAt parts 3 with
      | .error e => .error e
      | .ok z => .ok ⟨x, y, z⟩

/-- Body of the `vt ` branch (lines 68-69): two floats. -/
def vtBody (ls : List Char) : Except PyErr TexCoord :=
  let parts := splitWS ls
  match getFloatAt parts 1 with
  | .error e => .error e
  | .ok u =>
    match getFloatAt parts 2 with
    | .error e => .error e
    | .ok v => .ok ⟨u, v⟩

/-- Body of the `vn ` branch (lines 73-74): three floats. -/
def vnBody (ls : List Char) : Except PyErr Normal :=
  let parts := splitWS ls
  match getFloatAt parts 1 with
  | .error e => .error e
  | .ok x =>
    match getFloatAt parts 2 with
    | .error e => .error e
    | .ok y =>
      match getFloatAt parts 3 with
      | .error e => .error e
      | .ok z => .ok ⟨x, y, z⟩

/-- One face-vertex token (lines 83-92): split on `/`, each nonempty part
parsed as a 1-based integer and shifted to 0-based; the `vt` part needs
`len(parts) >= 2`, the `vn` part exactly `len(parts) == 3`. -/
def parseFaceVert (tok : List Char) : Except PyErr FaceVertex :=
  let parts := splitSlash tok
  let step : ℕ → Bool → Except PyErr (Option ℤ) := fun i lenOk =>
    match parts.get? i with
    | some t =>
      if lenOk && !t.isEmpty then
        match pythonInt t with
        | none => .error .valueError
        | some n => .ok (some (n - 1))
      else .ok none
    | none => .ok none
  match step 0 (decide (1 ≤ parts.length)) with
  | .error e => .error e
  | .ok vIdx =>
    match step 1 (decide (2 ≤ parts.length)) with
    | .error e => .error e
    | .ok vtIdx =>
      match step 2 (decide (parts.length = 3)) with
      | .error e => .error e
      | .ok vnIdx => .ok ⟨vIdx, vtIdx, vnIdx⟩

/-- One iteration of the `for line in f` loop of `parse_obj`
(lines 60-102), threading the mutable `obj` as explicit state. -/
def parseObjLine (s : OBJ) (line : List Char) : Except PyErr OBJ :=
  let ls := strip line
  if "v ".data.isPrefixOf line then
    match vBody ls with
    | .error e => .error e
    | .ok p =>
      .ok { s with positions := s.positions ++ [p],
                   out_lines := s.out_lines ++ [.tag .v s.positions.length] }
  else if "vt ".data.isPrefixOf line then
    match vtBody ls with
    | .error e => .error e
    | .ok t =>
      .ok { s with texcoords := s.texcoords ++ [t],
                   out_lines := s.out_lines ++ [.tag .vt s.texcoords.length] }
  else if "vn ".data.isPrefixOf line then
    match vnBody ls with
    | .error e => .error e
    | .ok n =>
      .ok { s with normals := s.normals ++ [n],
                   out_lines := s.out_lines ++ [.tag .vn s.normals.length] }
  else if "usemtl".data.isPrefixOf (lower ls) then
    match splitN1 ls with
    | _ :: rest :: _ =>
      .ok { s with current_material := rest, out_lines := s.out_lines ++ [.verbatim line] }
    | _ => .error .indexError
  else if "f ".data.isPrefixOf (lower ls) then
    match ((splitWS ls).drop 1).mapM parseFaceVert with
    | .error e => .error e
    | .ok fvs =>
      .ok { s with faces := s.faces ++ [{ vertices := fvs, material := s.current_material, line := ls }],
                   out_lines := s.out_lines ++ [.verbatim line] }
  else
    .ok { s with out_lines := s.out_lines ++ [.verbatim line] }

/-- The whole loop of `parse_obj`, over a list of lines. -/
def parseObjLines (s : OBJ) : List (List Char) → Except PyErr OBJ
  | [] => .ok s
  | l :: ls =>
    match parseObjLine s l with
    | .error e => .error e
    | .ok s' => parseObjLines s' ls

/-- `parse_obj` (line 56) on the text of the mesh file. -/
def parse_obj (text : List Char) : Except PyErr OBJ :=
  parseObjLines {} (linesKeepEnds text)

/-! ## MTL material model (`Material`, `MTL`, `parse_mtl`, lines 107-187) -/

/-- `Material` dataclass (line 107). -/
structure Material where
  name : List Char
  ambient : Option (List PyFloat) := none
  diffuse : Option (List PyFloat) := none
  specular : Option (List PyFloat) := none
  shininess : Option PyFloat := none
  alpha : Option PyFloat := none
  illum : Option ℤ := none
  map_Ka : Option (List Char) := none
  map_Kd : Option (List Char) := none
  map_Ks : Option (List Char) := none
  map_Ns : Option (List Char) := none
  map_d : Option (List Char) := none
  map_bump : Option (List Char) := none
  extra_props : List (List Char × List Char) := []
  deriving DecidableEq

/-- `MTL` dataclass (line 125).  In the source `current_material` is a
reference to the most recently appended element of `materials`; here that
aliasing is modelled by a flag (`hasCurrent`) plus in-place updates of the
last list element, which is observationally the same state. -/
structure MTL where
  materials : List Material := []
  out_lines : List (List Char) := []
  hasCurrent : Bool := false
  deriving DecidableEq

/-- Update the last element of a list in place (the effect of mutating the
material that `current_material` aliases). -/
def updLast (f : Material → Material) : List Material → List Material
  | [] => []
  | [m] => [f m]
  | m :: ms => m :: updLast f ms

/-- `list(map(float, value.split()))` (lines 155-159): `none` models the
`ValueError` of the first malformed numeral. -/
def floatList (v : List Char) : Option (List PyFloat) :=
  (splitWS v).mapM pythonFloat

/-- One iteration of the `for line in f` loop of `parse_mtl`
(lines 136-185). -/
def parseMtlLine (s : MTL) (line : List Char) : Except PyErr MTL :=
  let ls := strip line
  if ls.isEmpty || "#".data.isPrefixOf ls then
    .ok { s with out_lines := s.out_lines ++ [line] }
  else
    match splitN1 ls with
    | [] => .error .assertionError
    | [_] => .error .assertionError
    | k0 :: v :: _ =>
      let key := lower k0
      let put : MTL → MTL := fun t => { t with out_lines := t.out_lines ++ [line] }
      let upd : (Material → Material) → Except PyErr MTL := fun f =>
        .ok (put { s with materials := updLast f s.materials })
      if key = "newmtl".data then
        .ok (put { s with materials := s.materials ++ [{ name := v }], hasCurrent := true })
      else if s.hasCurrent then
        if key = "ka".data then
          match floatList v with
          | none => .error .valueError
          | some qs => upd (fun m => { m with ambient := some qs })
        else if key = "kd".data then
          match floatList v with
          | none => .error .valueError
          | some qs => upd (fun m => { m with diffuse := some qs })
        else if key = "ks".data then
          match floatList v with
          | none => .error .valueError
          | some qs => upd (fun m => { m with specular := some qs })
        else if key = "ns".data then
          match pythonFloat v with
          | none => .error .valueError
          | some q => upd (fun m => { m with shininess := some q })
        else if key = "d".data then
          match pythonFloat v with
          | none => .error .valueError
          | some q => upd (fun m => { m with alpha := some q })
        else if key = "illum".data then
          match pythonInt v with
          | none => .error .valueError
          | some n => upd (fun m => { m with illum := some n })
        else if key = "map_ka".data then
          upd (fun m => { m with map_Ka := some v })
        else if key = "map_kd".data then
          upd (fun m => { m with map_Kd := some v })
        else if key = "map_ks".data then
          upd (fun m => { m with map_Ks := some v })
        else if key = "map_ns".data then
          upd (fun m => { m with map_Ns := some v })
        else if key = "map_d".data then
          upd (fun m => { m with map_d := some v })
        else if key = "map_bump".data || key = "bump".data then
          upd (fun m => { m with map_bump := some v })
        else
          upd (fun m => { m with extra_props := dictUpd key v m.extra_props })
      else
        .ok (put s)

/-- The whole loop of `parse_mtl`. -/
def parseMtlLines (s : MTL) : List (List Char) → Except PyErr MTL
  | [] => .ok s
  | l :: ls =>
    match parseMtlLine s l with
    | .error e => .error e
    | .ok s' => parseMtlLines s' ls

/-- `parse_mtl` (line 132) on the text of the material-library file. -/
def parse_mtl (text : List Char) : Except PyErr MTL :=
  parseMtlLines {} (linesKeepEnds text)

/-! ## `parse_mtl_file` (lines 220-236) -/

/-- One iteration of the `for line in f` loop of `parse_mtl_file`
(lines 229-235); state is `(mat_to_tex, current_mat)`.  The guard
`current_mat and line.lower().startswith("map_kd")` is the truthiness
test `st.2.isSome && …` (every stored name is a nonempty token, so
`None`-ness is the only falsy case), and `st.2.getD []` reads the name
that the guard just proved present. -/
def mtlFileLine (st : List (List Char × List Char) × Option (List Char)) (line : List Char) :
    Except PyErr (List (List Char × List Char) × Option (List Char)) :=
  let ls := strip line
  if "newmtl".data.isPrefixOf (lower ls) then
    match splitN1 ls with
    | _ :: v :: _ => .ok (st.1, some v)
    | _ => .error .indexError
  else if st.2.isSome && "map_kd".data.isPrefixOf (lower ls) then
    match splitN1 ls with
    | _ :: v :: _ => .ok (dictUpd (st.2.getD []) v st.1, st.2)
    | _ => .error .indexError
  else .ok st

/-- The loop of `parse_mtl_file`. -/
def mtlFileLines (st : List (List Char × List Char) × Option (List Char)) :
    List (List Char) → Except PyErr (List (List Char × List Char) × Option (List Char))
  | [] => .ok st
  | l :: ls =>
    match mtlFileLine st l with
    | .error e => .error e
    | .ok st' => mtlFileLines st' ls

/-- `parse_mtl_file` (line 220) on the text of the material-library file;
returns the `mat_to_tex` dict.  (The `os.path.isfile` check and
`sys.exit` on a missing file are external collaborators, not modelled.) -/
def parse_mtl_file (text : List Char) : Except PyErr (List (List Char × List Char)) :=
  match mtlFileLines ([], none) (linesKeepEnds text) with
  | .error e => .error e
  | .ok st => .ok st.1

/-- The name-to-diffuse-map mapping induced by a `parse_mtl` result:
each material with a `map_Kd` contributes an entry, later materials
winning for duplicate names (dict-assignment semantics). -/
def matToTex (ms : List Material) : List (List Char × List Char) :=
  ms.foldl (fun d m => match m.map_Kd with | some p => dictUpd m.name p d | none => d) []

/-! ## Texture sampler (`sample_texture`, lines 190-197) -/

/-- An image as the script sees it through PIL: a size and a
`getpixel((x, y))` function returning the first three channels.  The
decoder itself is an opaque external collaborator. -/
structure PyImage where
  w : ℕ
  h : ℕ
  pix : ℤ → ℤ → ℕ × ℕ × ℕ

/-- Python `a % b` on floats (floored modulo, sign of the divisor), in
exact rational arithmetic. -/
def pyMod (a b : ℚ) : ℚ := a - b * ⌊a / b⌋

/-- Python `int(x)` on a float: truncation toward zero. -/
def pyTrunc (q : ℚ) : ℤ := if 0 ≤ q then ⌊q⌋ else -⌊-q⌋

/-- `sample_texture` (line 190), in exact rational arithmetic. -/
def sample_texture (image : PyImage) (u v : ℚ) : ℚ × ℚ × ℚ :=
  let u_wrapped := pyMod u 1
  let v_wrapped := pyMod v 1
  let px : ℤ := min (pyTrunc (u_wrapped * image.w)) ((image.w : ℤ) - 1)
  let py : ℤ := min (pyTrunc ((1 - v_wrapped) * image.h)) ((image.h : ℤ) - 1)
  let rgb := image.pix px py
  ((rgb.1 : ℚ) / 255, (rgb.2.1 : ℚ) / 255, (rgb.2.2 : ℚ) / 255)

/-! ## Mesh writer (modelled from the spec) -/

/-- Modelled from the spec: digits of a natural number (the source has no
mesh writer under `src/`; these renderers realize the writer of spec
§4.5).  Plain base-10 digits, `"0"` for zero. -/
def natDigits (n : ℕ) : List Char := Nat.toDigits 10 n

/-- Modelled from the spec: render a parsed float value the way
`str(float)` prints the short decimals the mesh format uses
(`1 ↦ "1.0"`, `1/4 ↦ "0.25"`); the exact textual encoding is an
implementation choice the spec leaves open (§6, §9a). -/
def renderFloat (f : PyFloat) : List Char :=
  let sign : List Char := if f.num < 0 then ['-'] else []
  let m := f.num.natAbs
  if 0 ≤ f.exp then
    sign ++ natDigits m ++ List.replicate f.exp.toNat '0' ++ ['.', '0']
  else
    let k := (-f.exp).toNat
    let ds := natDigits m
    let ds := List.replicate (k + 1 - ds.length) '0' ++ ds
    sign ++ ds.take (ds.length - k) ++ ['.'] ++ ds.drop (ds.length - k)

/-- Modelled from the spec: re-emit a position shadow line. -/
def renderV (p : Position) : List Char :=
  "v ".data ++ renderFloat p.x ++ [' '] ++ renderFloat p.y ++ [' '] ++ renderFloat p.z ++ ['\n']

/-- Modelled from the spec: re-emit a texcoord shadow line. -/
def renderVT (t : TexCoord) : List Char :=
  "vt ".data ++ renderFloat t.u ++ [' '] ++ renderFloat t.v ++ ['\n']

/-- Modelled from the spec: re-emit a normal shadow line. -/
def renderVN (n : Normal) : List Char :=
  "vn ".data ++ renderFloat n.x ++ [' '] ++ renderFloat n.y ++ [' '] ++ renderFloat n.z ++ ['\n']

/-- Modelled from the spec: emit one shadow record (spec §4.5, with no
baked colors): a tagged record is regenerated from its parsed entity, a
verbatim record is emitted as stored. -/
def emitRec (m : OBJ) : OutLine → List Char
  | .verbatim s => s
  | .tag .v i =>
    match m.positions.get? i with
    | some p => renderV p
    | none => []
  | .tag .vt i =>
    match m.texcoords.get? i with
    | some t => renderVT t
    | none => []
  | .tag .vn i =>
    match m.normals.get? i with
    | some n => renderVN n
    | none => []

/-- Modelled from the spec: the mesh writer with no baking — replay the
shadow sequence in order. -/
def write_obj (m : OBJ) : List Char :=
  (m.out_lines.map (emitRec m)).flatten

/-- A line is canonical when, if it is a tagged (`v `/`vt `/`vn `) data
line, re-rendering its parsed entity reproduces it byte-for-byte. -/
def canonicalLine (line : List Char) : Bool :=
  let ls := strip line
  if "v ".data.isPrefixOf line then
    match vBody ls with
    | .ok p => renderV p == line
    | .error _ => true
  else if "vt ".data.isPrefixOf line then
    match vtBody ls with
    | .ok t => renderVT t == line
    | .error _ => true
  else if "vn ".data.isPrefixOf line then
    match vnBody ls with
    | .ok n => renderVN n == line
    | .error _ => true
  else true

/-! ## The core of `main` (lines 239-250) -/

/-- The core of `main` after argument parsing, path derivation and the
overwrite prompt (external collaborators): parse the OBJ text, parse the
MTL text, print a message.  The `textures` parameter models the opaque
image-loading capability of the spec; `main` never invokes it, performs
no baking, and writes no file — on success it returns the (empty) list
of texts written. -/
def mainBake (objText mtlText : List Char)
    (_textures : List Char → Option PyImage) : Except PyErr (List (List Char)) :=
  match parse_obj objText with
  | .error e => .error e
  | .ok _ =>
    match parse_mtl mtlText with
    | .error e => .error e
    | .ok _ => .ok []

/-! ## Specification functions and predicates used by the claim theorems -/

/-- The remainder of a `usemtl` line after the directive (what
`line_strip.split(None, 1)[1]` yields when it exists). -/
def usemtlVal (ls : List Char) : List Char :=
  match splitN1 ls with
  | _ :: v :: _ => v
  | _ => []

/-- Reference scan for face materials: walk the lines, remembering the
current material, and emit it once per face line, classifying lines with
exactly the parser's branch conditions. -/
def faceMatsSpec (cur : List Char) : List (List Char) → List (List Char)
  | [] => []
  | l :: ls =>
    let t := strip l
    if "v ".data.isPrefixOf l then faceMatsSpec cur ls
    else if "vt ".data.isPrefixOf l then faceMatsSpec cur ls
    else if "vn ".data.isPrefixOf l then faceMatsSpec cur ls
    else if "usemtl".data.isPrefixOf (lower t) then faceMatsSpec (usemtlVal t) ls
    else if "f ".data.isPrefixOf (lower t) then cur :: faceMatsSpec cur ls
    else faceMatsSpec cur ls

/-- A non-blank, non-comment material-library line consisting of a single
token (a directive with a missing value). -/
def badMtlLine (l : List Char) : Bool :=
  let s := strip l
  !s.isEmpty && !("#".data.isPrefixOf s) && ((splitN1 s).length == 1)

/-- `p` is a strict extension of `q` (has `q` as a proper prefix). -/
def strictExtOf (q p : List Char) : Bool := q.isPrefixOf p && !(p == q)

/-- The line's first token, lowercased, does not strictly extend
`newmtl` or `map_kd` — on such lines the prefix tests of
`parse_mtl_file` agree with the exact key matches of `parse_mtl`. -/
def goodLineB (l : List Char) : Bool :=
  !(strictExtOf "newmtl".data (lower ((strip l).takeWhile notWS))) &&
    !(strictExtOf "map_kd".data (lower ((strip l).takeWhile notWS)))

/-- No line's first token, lowercased, strictly extends `newmtl` or
`map_kd`. -/
def goodMtlKeys (text : List Char) : Bool :=
  (linesKeepEnds text).all goodLineB

/-- Extract the mesh from a successful parse (defaulting to the empty
mesh), for stating closed witness theorems. -/
def okOBJ : Except PyErr OBJ → OBJ
  | .ok m => m
  | .error _ => {}

/-- Extract the library from a successful parse, as `okOBJ`. -/
def okMTL : Except PyErr MTL → MTL
  | .ok m => m
  | .error _ => {}

/-- Extract the dict from a successful `parse_mtl_file`, as `okOBJ`. -/
def okDict : Except PyErr (List (List Char × List Char)) → List (List Char × List Char)
  | .ok d => d
  | .error _ => []

/-- Relation between a `parse_mtl` state and a `parse_mtl_file` state:
the dict is the derived name-to-diffuse-map mapping, and the current
material of `parse_mtl_file` is the name of the material that
`parse_mtl`'s `current_material` aliases (the last appended one). -/
def mtlInv (s : MTL) (st : List (List Char × List Char) × Option (List Char)) : Prop :=
  st.1 = matToTex s.materials ∧
  ((s.hasCurrent = false ∧ s.materials = [] ∧ st.2 = none) ∨
   (s.hasCurrent = true ∧ ∃ i lm, s.materials = i ++ [lm] ∧ st.2 = some lm.name))

/-- Concrete 2×2 image used by witnesses: constant pixel `(10, 20, 255)`. -/
def imgW : PyImage := ⟨2, 2, fun _ _ => (10, 20, 255)⟩

/-- The sampling contract in the spec's own words: wrapped u maps to
column `min(floor(u_wrapped * width), width - 1)`, wrapped v to row
`min(floor((1 - v_wrapped) * height), height - 1)` (flipped vertical
axis), channels normalized by 255. -/
def sampleSpec (image : PyImage) (u v : ℚ) : ℚ × ℚ × ℚ :=
  let px : ℤ := min ⌊pyMod u 1 * (image.w : ℚ)⌋ ((image.w : ℤ) - 1)
  let py : ℤ := min ⌊(1 - pyMod v 1) * (image.h : ℚ)⌋ ((image.h : ℤ) - 1)
  (((image.pix px py).1 : ℚ) / 255, ((image.pix px py).2.1 : ℚ) / 255,
    ((image.pix px py).2.2 : ℚ) / 255)

/-! ## Helper lemmas -/

lemma lstrip_cons_of_notWS {c : Char} (h : isWS c = false) (cs : List Char) :
    lstrip (c :: cs) = c :: cs := by
  simp [lstrip, List.dropWhile_cons, h]

lemma rstrip_cons_head {c : Char} (h : isWS c = false) (cs : List Char) :
    ∃ r, rstrip (c :: cs) = c :: r := by
  have he : rstrip (c :: cs) =
      if (rstrip cs).isEmpty then (if isWS c then [] else [c]) else c :: rstrip cs := rfl
  have hnot : ¬(isWS c = true) := by simp [h]
  by_cases hemp : (rstrip cs).isEmpty
  · exact ⟨[], by rw [he, if_pos hemp, if_neg hnot]⟩
  · exact ⟨rstrip cs, by rw [he, if_neg hemp]⟩

lemma strip_cons_head {c : Char} (h : isWS c = false) (cs : List Char) :
    ∃ r, strip (c :: cs) = c :: r := by
  unfold strip
  rw [lstrip_cons_of_notWS h]
  exact rstrip_cons_head h cs

/-- A line starting with a non-whitespace character keeps that character
as the head of its strip; so its strip cannot start differently. -/
lemma strip_ne_of_head {b : Char} {t l : List Char} {c : Char} (hc : isWS c = false)
    (hl : l = c :: t) (hne : b ≠ c) (rest : List Char) : strip l ≠ b :: rest := by
  rcases strip_cons_head hc t with ⟨r, hr⟩
  rw [hl, hr]
  intro h
  injection h with h1 _
  exact hne h1.symm

/-- A line whose stripped form is exactly `usemtl` does not satisfy the
raw-prefix tests of the `v `/`vt `/`vn ` branches. -/
lemma not_v_of_strip_usemtl {l : List Char} (h : strip l = "usemtl".data) :
    ("v ".data.isPrefixOf l = false) ∧ ("vt ".data.isPrefixOf l = false) ∧
      ("vn ".data.isPrefixOf l = false) := by
  have key : ∀ b : Char, ∀ t : List Char, l = 'v' :: b :: t → False := by
    intro b t hl
    exact strip_ne_of_head (c := 'v') rfl hl (by decide) "semtl".data h
  refine ⟨?_, ?_, ?_⟩
  · cases hb : "v ".data.isPrefixOf l with
    | false => rfl
    | true =>
      exfalso
      rcases List.isPrefixOf_iff_prefix.mp hb with ⟨t, ht⟩
      exact key ' ' t ht.symm
  · cases hb : "vt ".data.isPrefixOf l with
    | false => rfl
    | true =>
      exfalso
      rcases List.isPrefixOf_iff_prefix.mp hb with ⟨t, ht⟩
      exact key 't' (' ' :: t) ht.symm
  · cases hb : "vn ".data.isPrefixOf l with
    | false => rfl
    | true =>
      exfalso
      rcases List.isPrefixOf_iff_prefix.mp hb with ⟨t, ht⟩
      exact key 'n' (' ' :: t) ht.symm

/-- On a line whose stripped form is exactly `usemtl`, the parser hits
`line_strip.split(None, 1)[1]` with a single-element list: `IndexError`. -/
lemma bareUsemtl_line_errors (s : OBJ) {l : List Char} (h : strip l = "usemtl".data) :
    parseObjLine s l = .error .indexError := by
  obtain ⟨hv, hvt, hvn⟩ := not_v_of_strip_usemtl h
  simp only [parseObjLine]
  rw [if_neg (by simp [hv]), if_neg (by simp [hvt]), if_neg (by simp [hvn]), h]
  rfl

lemma parseObjLines_err_of_bare :
    ∀ (lines : List (List Char)) (s : OBJ),
      (∃ l ∈ lines, strip l = "usemtl".data) → ∃ e, parseObjLines s lines = .error e := by
  intro lines
  induction lines with
  | nil =>
    intro s h
    simp at h
  | cons l ls ih =>
    intro s h
    rcases h with ⟨l', hmem, hstrip⟩
    rcases List.mem_cons.mp hmem with h1 | h1
    · rw [h1] at hstrip
      refine ⟨.indexError, ?_⟩
      simp only [parseObjLines]
      rw [bareUsemtl_line_errors s hstrip]
    · cases hc : parseObjLine s l with
      | error e => exact ⟨e, by simp only [parseObjLines]; rw [hc]⟩
      | ok s' =>
        rcases ih s' ⟨l', h1, hstrip⟩ with ⟨e, he⟩
        exact ⟨e, by simp only [parseObjLines]; rw [hc]; exact he⟩

/-- A single-token directive line makes `parse_mtl`'s `assert value` fail. -/
lemma badMtl_line_errors (s : MTL) {l : List Char} (h : badMtlLine l = true) :
    parseMtlLine s l = .error .assertionError := by
  have h' := h
  unfold badMtlLine at h'
  rw [Bool.and_eq_true, Bool.and_eq_true] at h'
  obtain ⟨⟨h1, h2⟩, h3⟩ := h'
  rw [Bool.not_eq_true'] at h1 h2
  simp only [parseMtlLine]
  rw [if_neg (by simp [h1, h2])]
  cases hs : splitN1 (strip l) with
  | nil => rfl
  | cons a as =>
    cases as with
    | nil => rfl
    | cons b t =>
      exfalso
      rw [hs] at h3
      simp at h3

lemma parseMtlLines_err_of_bad :
    ∀ (lines : List (List Char)) (s : MTL),
      (∃ l ∈ lines, badMtlLine l = true) → ∃ e, parseMtlLines s lines = .error e := by
  intro lines
  induction lines with
  | nil =>
    intro s h
    simp at h
  | cons l ls ih =>
    intro s h
    rcases h with ⟨l', hmem, hbad⟩
    rcases List.mem_cons.mp hmem with h1 | h1
    · rw [h1] at hbad
      refine ⟨.assertionError, ?_⟩
      simp only [parseMtlLines]
      rw [badMtl_line_errors s hbad]
    · cases hc : parseMtlLine s l with
      | error e => exact ⟨e, by simp only [parseMtlLines]; rw [hc]⟩
      | ok s' =>
        rcases ih s' ⟨l', h1, hbad⟩ with ⟨e, he⟩
        exact ⟨e, by simp only [parseMtlLines]; rw [hc]; exact he⟩

/-! ## Claim theorems -/

/-- C10: for every mesh text containing a line whose trimmed form is
exactly `usemtl` (the directive with no material name), `parse_obj`
raises an uncaught exception (here: the `IndexError` of
`line_strip.split(None, 1)[1]`, or an earlier line's error) instead of
returning a mesh — in particular the current material is never set to
the empty string by such a line. -/
theorem c10_bare_usemtl_raises (text : List Char)
    (h : ∃ l ∈ linesKeepEnds text, strip l = "usemtl".data) :
    (parse_obj text).isOk = false := by
  rcases parseObjLines_err_of_bare (linesKeepEnds text) {} h with ⟨e, he⟩
  unfold parse_obj
  rw [he]
  rfl

/-- Witness for C10 at the one-line text `usemtl`. -/
theorem c10_bare_usemtl_raises_witness :
    (∃ l ∈ linesKeepEnds "usemtl\n".data, strip l = "usemtl".data) ∧
      (parse_obj "usemtl\n".data).isOk = false :=
  ⟨by decide, c10_bare_usemtl_raises _ (by decide)⟩

/-- C4 (counterexample to the claim as stated): on the single-token line
`newmtl` the parser fails via the bare `assert value` — a Python
`AssertionError` carrying no message — not a `ParseError` reading
`directive missing value`; the source defines no `ParseError` at all
(`PyErr` lists every exception kind the script can raise). -/
theorem c4_assert_counterexample :
    parse_mtl "newmtl\n".data = .error .assertionError := by decide

/-- C4 (amended): for every material-library text containing a non-blank,
non-comment line consisting of a single token, `parse_mtl` fails with an
uncaught exception (an `AssertionError` from `assert value` when that
line is reached first) rather than returning a material library. -/
theorem c4_single_token_fails (text : List Char)
    (h : ∃ l ∈ linesKeepEnds text, badMtlLine l = true) :
    (parse_mtl text).isOk = false := by
  rcases parseMtlLines_err_of_bad (linesKeepEnds text) {} h with ⟨e, he⟩
  unfold parse_mtl
  rw [he]
  rfl

/-- Witness for C4 at the one-line text `newmtl`. -/
theorem c4_single_token_fails_witness :
    (∃ l ∈ linesKeepEnds "newmtl\n".data, badMtlLine l = true) ∧
      (parse_mtl "newmtl\n".data).isOk = false :=
  ⟨by decide, c4_single_token_fails _ (by decide)⟩

/-- C6: face-vertex token parsing converts 1-based indices to 0-based and
honors the optional-field grammar: `5/3/2` yields indices (4, 2, 1), and
`5`, `5/3`, `5//2`, `5/3/2` parse with exactly the fields the token shape
implies. -/
theorem c6_face_token_grammar :
    parseFaceVert "5/3/2".data = .ok ⟨some 4, some 2, some 1⟩ ∧
      parseFaceVert "5".data = .ok ⟨some 4, none, none⟩ ∧
      parseFaceVert "5/3".data = .ok ⟨some 4, some 2, none⟩ ∧
      parseFaceVert "5//2".data = .ok ⟨some 4, none, some 1⟩ := by decide

/-- C2 (counterexample to the claim as stated): the face token `5/3/2`
references position 5, texcoord 3 and normal 2 while no `v`/`vt`/`vn`
line was ever declared, yet `parse_obj` succeeds and returns the mesh
with the unresolved 0-based indices (4, 2, 1) — no `ParseError`, no
failure. -/
theorem c2_oob_accepted_counterexample :
    parse_obj "f 5/3/2\n".data =
      .ok { positions := [], texcoords := [], normals := [],
            faces := [{ vertices := [⟨some 4, some 2, some 1⟩],
                        material := [], line := "f 5/3/2".data }],
            out_lines := [.verbatim "f 5/3/2\n".data],
            current_material := [] } := by decide

/-! ### Lemmas for C2: universal absence of bounds checking -/

lemma digit_ne {c : Char} (h : c.isDigit = true) (x : Char) (hx : x.isDigit = false) :
    c ≠ x := by
  intro he
  rw [he, hx] at h
  exact Bool.noConfusion h

lemma ws_isDigit_false {c : Char} (h : isWS c = true) : c.isDigit = false := by
  unfold isWS at h
  simp only [Bool.or_eq_true, decide_eq_true_eq] at h
  rcases h with ((((h | h) | h) | h) | h) | h <;> subst h <;> decide

lemma isWS_false_of_digit {c : Char} (h : c.isDigit = true) : isWS c = false := by
  cases hw : isWS c with
  | false => rfl
  | true =>
    rw [ws_isDigit_false hw] at h
    exact Bool.noConfusion h

lemma takeWhile_all {p : Char → Bool} :
    ∀ {l : List Char}, (∀ c ∈ l, p c = true) → l.takeWhile p = l := by
  intro l
  induction l with
  | nil => intro _; rfl
  | cons a t ih =>
    intro h
    rw [List.takeWhile_cons, if_pos (h a (List.mem_cons_self a t)),
      ih (fun c hc => h c (List.mem_cons_of_mem a hc))]

lemma dropWhile_all {p : Char → Bool} :
    ∀ {l : List Char}, (∀ c ∈ l, p c = true) → l.dropWhile p = [] := by
  intro l
  induction l with
  | nil => intro _; rfl
  | cons a t ih =>
    intro h
    rw [List.dropWhile_cons, if_pos (h a (List.mem_cons_self a t))]
    exact ih (fun c hc => h c (List.mem_cons_of_mem a hc))

lemma rstrip_ws_concat {c : Char} (hc : isWS c = true) :
    ∀ l : List Char, rstrip (l ++ [c]) = rstrip l := by
  intro l
  induction l with
  | nil =>
    show rstrip [c] = rstrip []
    have he : rstrip [c] =
        if (rstrip ([] : List Char)).isEmpty then (if isWS c then [] else [c])
        else c :: rstrip [] := rfl
    rw [he]
    simp [hc, rstrip]
  | cons a t ih =>
    have h1 : rstrip (a :: (t ++ [c])) =
        if (rstrip (t ++ [c])).isEmpty then (if isWS a then [] else [a])
        else a :: rstrip (t ++ [c]) := rfl
    have h2 : rstrip (a :: t) =
        if (rstrip t).isEmpty then (if isWS a then [] else [a]) else a :: rstrip t := rfl
    rw [show (a :: t) ++ [c] = a :: (t ++ [c]) from rfl, h1, h2, ih]

lemma rstrip_concat_nonws {c : Char} (hc : isWS c = false) :
    ∀ l : List Char, rstrip (l ++ [c]) = l ++ [c] := by
  intro l
  induction l with
  | nil =>
    show rstrip [c] = [c]
    have he : rstrip [c] =
        if (rstrip ([] : List Char)).isEmpty then (if isWS c then [] else [c])
        else c :: rstrip [] := rfl
    rw [he]
    simp [hc, rstrip]
  | cons a t ih =>
    have h1 : rstrip (a :: (t ++ [c])) =
        if (rstrip (t ++ [c])).isEmpty then (if isWS a then [] else [a])
        else a :: rstrip (t ++ [c]) := rfl
    have hne : (t ++ [c]).isEmpty = false := by cases t <;> rfl
    rw [show (a :: t) ++ [c] = a :: (t ++ [c]) from rfl, h1, ih, hne]
    rfl

lemma readSign_of_ne {c : Char} {r : List Char} (h1 : ¬(c = '+')) (h2 : ¬(c = '-')) :
    readSign (c :: r) = (1, c :: r) := by
  simp only [readSign]
  rw [if_neg h1, if_neg h2]

lemma strip_all_nonws {d : List Char} (hne : d ≠ []) (hd : ∀ c ∈ d, isWS c = false) :
    strip d = d := by
  rcases List.exists_cons_of_ne_nil hne with ⟨a, t, rfl⟩
  unfold strip
  rw [lstrip_cons_of_notWS (hd a (List.mem_cons_self a t))]
  rcases List.eq_nil_or_concat (a :: t) with h | ⟨L, z, hLz⟩
  · exact absurd h (by simp)
  · rw [hLz, List.concat_eq_append]
    exact rstrip_concat_nonws (hd z (by rw [hLz]; simp)) L

lemma pythonInt_digits {d : List Char} (hne : d ≠ []) (hd : ∀ c ∈ d, c.isDigit = true) :
    pythonInt d = some ((digitsToNat d : ℤ)) := by
  have hstrip : strip d = d :=
    strip_all_nonws hne (fun c hc => isWS_false_of_digit (hd c hc))
  rcases List.exists_cons_of_ne_nil hne with ⟨a, t, rfl⟩
  have hsign : readSign (a :: t) = (1, a :: t) :=
    readSign_of_ne (digit_ne (hd a (List.mem_cons_self a t)) '+' (by decide))
      (digit_ne (hd a (List.mem_cons_self a t)) '-' (by decide))
  have htake : (a :: t).takeWhile Char.isDigit = a :: t := takeWhile_all hd
  have hdrop : (a :: t).dropWhile Char.isDigit = [] := dropWhile_all hd
  simp only [pythonInt, hstrip, hsign, htake, hdrop]
  rw [if_neg (by simp), one_mul]

lemma splitSlash_append :
    ∀ (a : List Char), (∀ c ∈ a, ¬(c = '/')) →
      ∀ r, splitSlash (a ++ '/' :: r) = a :: splitSlash r := by
  intro a
  induction a with
  | nil =>
    intro _ r
    show splitSlash ('/' :: r) = [] :: splitSlash r
    simp only [splitSlash]
    simp
  | cons c a' ih =>
    intro ha r
    show splitSlash (c :: (a' ++ '/' :: r)) = (c :: a') :: splitSlash r
    simp only [splitSlash]
    rw [if_neg (ha c (List.mem_cons_self c a')),
      ih (fun x hx => ha x (List.mem_cons_of_mem c hx)) r]

lemma splitSlash_noSlash :
    ∀ (a : List Char), (∀ c ∈ a, ¬(c = '/')) → splitSlash a = [a] := by
  intro a
  induction a with
  | nil => intro _; rfl
  | cons c a' ih =>
    intro ha
    simp only [splitSlash]
    rw [if_neg (ha c (List.mem_cons_self c a')),
      ih (fun x hx => ha x (List.mem_cons_of_mem c hx))]

lemma foldr_wordStep_token :
    ∀ (w : List Char), w ≠ [] → (∀ c ∈ w, isWS c = false) →
      w.foldr wordStep [] = [w] := by
  intro w
  induction w with
  | nil =>
    intro h _
    exact absurd rfl h
  | cons c w' ih =>
    intro _ hall
    show wordStep c (w'.foldr wordStep []) = [c :: w']
    have hcws : ¬(isWS c = true) := by simp [hall c (List.mem_cons_self c w')]
    by_cases hw : w' = []
    · subst hw
      unfold wordStep
      rw [if_neg hcws]
      rfl
    · rw [ih hw (fun x hx => hall x (List.mem_cons_of_mem c hx))]
      unfold wordStep
      rw [if_neg hcws]

lemma splitWS_fline {w : List Char} (hne : w ≠ []) (hall : ∀ c ∈ w, isWS c = false) :
    splitWS ('f' :: ' ' :: w) = [['f'], w] := by
  unfold splitWS
  rw [show List.foldr wordStep [] ('f' :: ' ' :: w) =
        wordStep 'f' (wordStep ' ' (w.foldr wordStep [])) from rfl,
    foldr_wordStep_token w hne hall,
    show wordStep ' ' [w] = [] :: [w] from rfl,
    show wordStep 'f' ([] :: [w]) = ['f'] :: [w] from rfl]
  have hwe : w.isEmpty = false := by
    rcases List.exists_cons_of_ne_nil hne with ⟨b, w', rfl⟩
    rfl
  simp [List.filter, hwe]

lemma exceptMapM_singleton {α β : Type} (f : α → Except PyErr β) {x : α} {fv : β}
    (h : f x = .ok fv) : List.mapM f [x] = .ok [fv] := by
  simp only [List.mapM, List.mapM.loop, h]
  rfl

lemma parseFaceVert_digits {d₁ d₂ d₃ : List Char}
    (h₁ : d₁ ≠ []) (h₂ : d₂ ≠ []) (h₃ : d₃ ≠ [])
    (hd₁ : ∀ c ∈ d₁, c.isDigit = true) (hd₂ : ∀ c ∈ d₂, c.isDigit = true)
    (hd₃ : ∀ c ∈ d₃, c.isDigit = true) :
    parseFaceVert (d₁ ++ '/' :: (d₂ ++ '/' :: d₃)) =
      .ok ⟨some ((digitsToNat d₁ : ℤ) - 1), some ((digitsToNat d₂ : ℤ) - 1),
           some ((digitsToNat d₃ : ℤ) - 1)⟩ := by
  have hs : splitSlash (d₁ ++ '/' :: (d₂ ++ '/' :: d₃)) = [d₁, d₂, d₃] := by
    rw [splitSlash_append d₁ (fun c hc => digit_ne (hd₁ c hc) '/' (by decide)),
      splitSlash_append d₂ (fun c hc => digit_ne (hd₂ c hc) '/' (by decide)),
      splitSlash_noSlash d₃ (fun c hc => digit_ne (hd₃ c hc) '/' (by decide))]
  have hE₁ : d₁.isEmpty = false := by
    rcases List.exists_cons_of_ne_nil h₁ with ⟨a, t, rfl⟩
    rfl
  have hE₂ : d₂.isEmpty = false := by
    rcases List.exists_cons_of_ne_nil h₂ with ⟨a, t, rfl⟩
    rfl
  have hE₃ : d₃.isEmpty = false := by
    rcases List.exists_cons_of_ne_nil h₃ with ⟨a, t, rfl⟩
    rfl
  have hp₁ := pythonInt_digits h₁ hd₁
  have hp₂ := pythonInt_digits h₂ hd₂
  have hp₃ := pythonInt_digits h₃ hd₃
  simp [parseFaceVert, hs, hE₁, hE₂, hE₃, hp₁, hp₂, hp₃]

lemma lineStep_ne_nil (c : Char) (acc : List (List Char)) : lineStep c acc ≠ [] := by
  unfold lineStep
  by_cases h : c = '\n'
  · rw [if_pos h]
    exact List.cons_ne_nil _ _
  · rw [if_neg h]
    cases acc with
    | nil => exact List.cons_ne_nil _ _
    | cons l ls => exact List.cons_ne_nil _ _

lemma linesKeepEnds_ne_nil {t : List Char} (h : t ≠ []) : linesKeepEnds t ≠ [] := by
  rcases List.exists_cons_of_ne_nil h with ⟨c, t', rfl⟩
  exact lineStep_ne_nil c _

lemma lineStep_append {c : Char} {L : List (List Char)} (hL : L ≠ [])
    (acc : List (List Char)) : lineStep c (L ++ acc) = lineStep c L ++ acc := by
  unfold lineStep
  by_cases h : c = '\n'
  · rw [if_pos h, if_pos h]
    rfl
  · rw [if_neg h, if_neg h]
    rcases List.exists_cons_of_ne_nil hL with ⟨l, ls, rfl⟩
    rfl

lemma foldr_lineStep_acc :
    ∀ (t : List Char), (t = [] ∨ t.getLast? = some '\n') →
      ∀ acc, t.foldr lineStep acc = linesKeepEnds t ++ acc := by
  intro t
  induction t with
  | nil =>
    intro _ acc
    rfl
  | cons c t' ih =>
    intro h acc
    rcases h with h | h
    · exact absurd h (by simp)
    · cases ht' : t' with
      | nil =>
        rw [ht'] at h
        have hc : c = '\n' := by
          rw [List.getLast?_singleton] at h
          exact Option.some.inj h
        subst hc
        subst ht'
        rfl
      | cons b t'' =>
        subst ht'
        have h' : (b :: t'').getLast? = some '\n' := by
          rw [← List.getLast?_cons_cons (a := c)]
          exact h
        show lineStep c ((b :: t'').foldr lineStep acc) = _
        rw [ih (Or.inr h') acc]
        exact lineStep_append (linesKeepEnds_ne_nil (by simp)) acc

lemma linesKeepEnds_append {t u : List Char} (h : t = [] ∨ t.getLast? = some '\n') :
    linesKeepEnds (t ++ u) = linesKeepEnds t ++ linesKeepEnds u := by
  unfold linesKeepEnds
  rw [List.foldr_append]
  exact foldr_lineStep_acc t h _

lemma linesKeepEnds_single :
    ∀ (l : List Char), (∀ c ∈ l, ¬(c = '\n')) →
      linesKeepEnds (l ++ ['\n']) = [l ++ ['\n']] := by
  intro l
  induction l with
  | nil => intro _; rfl
  | cons c t ih =>
    intro hn
    show lineStep c (linesKeepEnds (t ++ ['\n'])) = [(c :: t) ++ ['\n']]
    rw [ih (fun x hx => hn x (List.mem_cons_of_mem c hx))]
    unfold lineStep
    rw [if_neg (hn c (List.mem_cons_self c t))]
    rfl

lemma parseObjLines_append_ok :
    ∀ (L₁ : List (List Char)) {L₂ : List (List Char)} {s s' : OBJ},
      parseObjLines s L₁ = .ok s' → parseObjLines s (L₁ ++ L₂) = parseObjLines s' L₂ := by
  intro L₁
  induction L₁ with
  | nil =>
    intro L₂ s s' h
    simp only [parseObjLines] at h
    rw [Except.ok.injEq] at h
    rw [List.nil_append, h]
  | cons l t ih =>
    intro L₂ s s' h
    simp only [parseObjLines] at h
    show parseObjLines s (l :: (t ++ L₂)) = _
    simp only [parseObjLines]
    cases hc : parseObjLine s l with
    | error e =>
      rw [hc] at h
      exact Except.noConfusion h
    | ok s₁ =>
      rw [hc] at h
      dsimp only at h ⊢
      exact ih h

lemma strip_fline {w : List Char} (hne : w ≠ []) (hall : ∀ c ∈ w, isWS c = false) :
    strip (('f' :: ' ' :: w) ++ ['\n']) = 'f' :: ' ' :: w := by
  unfold strip
  rw [show ('f' :: ' ' :: w) ++ ['\n'] = 'f' :: ((' ' :: w) ++ ['\n']) from rfl,
    lstrip_cons_of_notWS (by decide),
    show 'f' :: ((' ' :: w) ++ ['\n']) = ('f' :: ' ' :: w) ++ ['\n'] from rfl,
    rstrip_ws_concat (by decide) ('f' :: ' ' :: w)]
  rcases List.eq_nil_or_concat w with rfl | ⟨L, z, rfl⟩
  · exact absurd rfl hne
  · rw [List.concat_eq_append,
      show 'f' :: ' ' :: (L ++ [z]) = ('f' :: ' ' :: L) ++ [z] from rfl]
    exact rstrip_concat_nonws (hall z (by simp)) _

/-- Evaluating `parseObjLine` on a face line `f d₁/d₂/d₃` with arbitrary
digit-string indices, against an arbitrary parser state: the line is
always accepted and the raw 0-based indices stored, no matter what the
state's arrays hold. -/
lemma parseObjLine_face (s : OBJ) {d₁ d₂ d₃ : List Char}
    (h₁ : d₁ ≠ []) (h₂ : d₂ ≠ []) (h₃ : d₃ ≠ [])
    (hd₁ : ∀ c ∈ d₁, c.isDigit = true) (hd₂ : ∀ c ∈ d₂, c.isDigit = true)
    (hd₃ : ∀ c ∈ d₃, c.isDigit = true) :
    parseObjLine s (('f' :: ' ' :: (d₁ ++ '/' :: (d₂ ++ '/' :: d₃))) ++ ['\n']) =
      .ok { s with
            faces := s.faces ++
              [{ vertices := [⟨some ((digitsToNat d₁ : ℤ) - 1),
                              some ((digitsToNat d₂ : ℤ) - 1),
                              some ((digitsToNat d₃ : ℤ) - 1)⟩],
                 material := s.current_material,
                 line := 'f' :: ' ' :: (d₁ ++ '/' :: (d₂ ++ '/' :: d₃)) }],
            out_lines := s.out_lines ++
              [.verbatim (('f' :: ' ' :: (d₁ ++ '/' :: (d₂ ++ '/' :: d₃))) ++ ['\n'])] } := by
  have hwne : d₁ ++ '/' :: (d₂ ++ '/' :: d₃) ≠ [] := by
    rcases List.exists_cons_of_ne_nil h₁ with ⟨a, t, rfl⟩
    simp
  have hwall : ∀ c ∈ d₁ ++ '/' :: (d₂ ++ '/' :: d₃), isWS c = false := by
    intro c hc
    simp only [List.mem_append, List.mem_cons] at hc
    rcases hc with hc | hc | hc | hc | hc
    · exact isWS_false_of_digit (hd₁ c hc)
    · subst hc; rfl
    · exact isWS_false_of_digit (hd₂ c hc)
    · subst hc; rfl
    · exact isWS_false_of_digit (hd₃ c hc)
  have hv : ['v', ' '].isPrefixOf
      (('f' :: ' ' :: (d₁ ++ '/' :: (d₂ ++ '/' :: d₃))) ++ ['\n']) = false := rfl
  have hvt : ['v', 't', ' '].isPrefixOf
      (('f' :: ' ' :: (d₁ ++ '/' :: (d₂ ++ '/' :: d₃))) ++ ['\n']) = false := rfl
  have hvn : ['v', 'n', ' '].isPrefixOf
      (('f' :: ' ' :: (d₁ ++ '/' :: (d₂ ++ '/' :: d₃))) ++ ['\n']) = false := rfl
  have hstrip := strip_fline hwne hwall
  have huse : ['u', 's', 'e', 'm', 't', 'l'].isPrefixOf
      (lower ('f' :: ' ' :: (d₁ ++ '/' :: (d₂ ++ '/' :: d₃)))) = false := rfl
  have hfpre : ['f', ' '].isPrefixOf
      (lower ('f' :: ' ' :: (d₁ ++ '/' :: (d₂ ++ '/' :: d₃)))) = true := by
    apply List.isPrefixOf_iff_prefix.mpr
    exact ⟨lower (d₁ ++ '/' :: (d₂ ++ '/' :: d₃)), rfl⟩
  simp only [parseObjLine]
  rw [if_neg (by simp [hv]), if_neg (by simp [hvt]), if_neg (by simp [hvn]), hstrip,
    if_neg (by simp [huse]), if_pos hfpre, splitWS_fline hwne hwall,
    show List.drop 1 [['f'], d₁ ++ '/' :: (d₂ ++ '/' :: d₃)] =
      [d₁ ++ '/' :: (d₂ ++ '/' :: d₃)] from rfl,
    exceptMapM_singleton parseFaceVert (parseFaceVert_digits h₁ h₂ h₃ hd₁ hd₂ hd₃)]

/-- C2 (amended): the parser performs no bounds checking at all — for
every accepted, newline-terminated mesh text (so against position,
texcoord and normal arrays of any size) and every face-vertex token
`d₁/d₂/d₃` built from arbitrary digit strings (indices of any
magnitude, resolvable or not), appending the line `f d₁/d₂/d₃` still
parses successfully, and the face stores the raw 0-based indices
(token value minus 1) unchecked; no `ParseError` exists in the code. -/
theorem c2_no_bounds_check (text : List Char) (m : OBJ) (d₁ d₂ d₃ : List Char)
    (hok : parse_obj text = .ok m)
    (hnl : text = [] ∨ text.getLast? = some '\n')
    (h₁ : d₁ ≠ []) (h₂ : d₂ ≠ []) (h₃ : d₃ ≠ [])
    (hd₁ : ∀ c ∈ d₁, c.isDigit = true) (hd₂ : ∀ c ∈ d₂, c.isDigit = true)
    (hd₃ : ∀ c ∈ d₃, c.isDigit = true) :
    parse_obj (text ++ (('f' :: ' ' :: (d₁ ++ '/' :: (d₂ ++ '/' :: d₃))) ++ ['\n'])) =
      .ok { m with
            faces := m.faces ++
              [{ vertices := [⟨some ((digitsToNat d₁ : ℤ) - 1),
                              some ((digitsToNat d₂ : ℤ) - 1),
                              some ((digitsToNat d₃ : ℤ) - 1)⟩],
                 material := m.current_material,
                 line := 'f' :: ' ' :: (d₁ ++ '/' :: (d₂ ++ '/' :: d₃)) }],
            out_lines := m.out_lines ++
              [.verbatim (('f' :: ' ' :: (d₁ ++ '/' :: (d₂ ++ '/' :: d₃))) ++ ['\n'])] } := by
  have hnoNL : ∀ c ∈ 'f' :: ' ' :: (d₁ ++ '/' :: (d₂ ++ '/' :: d₃)), ¬(c = '\n') := by
    intro c hc
    simp only [List.mem_cons, List.mem_append] at hc
    rcases hc with rfl | rfl | hc | rfl | hc | rfl | hc
    · decide
    · decide
    · exact digit_ne (hd₁ c hc) '\n' (by decide)
    · decide
    · exact digit_ne (hd₂ c hc) '\n' (by decide)
    · decide
    · exact digit_ne (hd₃ c hc) '\n' (by decide)
  unfold parse_obj at hok ⊢
  rw [linesKeepEnds_append hnl,
    linesKeepEnds_single ('f' :: ' ' :: (d₁ ++ '/' :: (d₂ ++ '/' :: d₃))) hnoNL,
    parseObjLines_append_ok (linesKeepEnds text) hok]
  simp only [parseObjLines]
  rw [parseObjLine_face m h₁ h₂ h₃ hd₁ hd₂ hd₃]

/-- Witness for C2 (amended): a mesh declaring a single position, then a
face referencing positions, texcoords and normals number 999 — none of
which resolves — still parses, with indices 998 stored raw. -/
theorem c2_no_bounds_check_witness :
    parse_obj "v 1.0 2.0 3.0\n".data = .ok (okOBJ (parse_obj "v 1.0 2.0 3.0\n".data)) ∧
      ("v 1.0 2.0 3.0\n".data = [] ∨ ("v 1.0 2.0 3.0\n".data).getLast? = some '\n') ∧
      parse_obj ("v 1.0 2.0 3.0\n".data ++
          (('f' :: ' ' :: ("999".data ++ '/' :: ("999".data ++ '/' :: "999".data))) ++ ['\n'])) =
        .ok { okOBJ (parse_obj "v 1.0 2.0 3.0\n".data) with
              faces := (okOBJ (parse_obj "v 1.0 2.0 3.0\n".data)).faces ++
                [{ vertices := [⟨some 998, some 998, some 998⟩],
                   material := (okOBJ (parse_obj "v 1.0 2.0 3.0\n".data)).current_material,
                   line := 'f' :: ' ' :: ("999".data ++ '/' :: ("999".data ++ '/' :: "999".data)) }],
              out_lines := (okOBJ (parse_obj "v 1.0 2.0 3.0\n".data)).out_lines ++
                [.verbatim (('f' :: ' ' ::
                  ("999".data ++ '/' :: ("999".data ++ '/' :: "999".data))) ++ ['\n'])] } :=
  ⟨by decide, Or.inr (by decide),
    c2_no_bounds_check "v 1.0 2.0 3.0\n".data (okOBJ (parse_obj "v 1.0 2.0 3.0\n".data))
      "999".data "999".data "999".data (by decide) (Or.inr (by decide))
      (by decide) (by decide) (by decide) (by decide) (by decide) (by decide)⟩

/-- C3 (code bug): with an OBJ whose face uses material `m`, an MTL
declaring `map_Kd missing.png` for `m`, and a texture loader that has no
file at all (every path is missing), `main`'s core still succeeds,
returning without error and writing no output file: the script never
loads textures, never bakes, and no `MissingResourceError` exists in it,
although it prints `[DONE] Wrote baked OBJ`. -/
theorem c3_missing_texture_ignored :
    mainBake "v 1.0 2.0 3.0\nvt 0.5 0.5\nusemtl m\nf 1/1 1/1 1/1\n".data
      "newmtl m\nmap_Kd missing.png\n".data (fun _ => none) = .ok [] := by decide

/-- Python float `% 1.0` is the fractional part. -/
lemma pyMod_one (a : ℚ) : pyMod a 1 = Int.fract a := by
  unfold pyMod
  rw [div_one, one_mul]
  exact Int.self_sub_floor a

/-- C7: the sampler wraps u and v into `[0, 1)` with a non-negative
(floored) modulo, and consequently sampling any image at
`u = 1.25, v = -0.25` gives exactly the sample at `u = 0.25, v = 0.75`. -/
theorem c7_uv_wrap (image : PyImage) (u v : ℚ) :
    (0 ≤ pyMod u 1 ∧ pyMod u 1 < 1) ∧ (0 ≤ pyMod v 1 ∧ pyMod v 1 < 1) ∧
      sample_texture image (5/4) (-(1/4)) = sample_texture image (1/4) (3/4) := by
  refine ⟨?_, ?_, ?_⟩
  · rw [pyMod_one]
    exact ⟨Int.fract_nonneg u, Int.fract_lt_one u⟩
  · rw [pyMod_one]
    exact ⟨Int.fract_nonneg v, Int.fract_lt_one v⟩
  · have h1 : pyMod ((5 : ℚ)/4) 1 = pyMod ((1 : ℚ)/4) 1 := by
      rw [pyMod_one, pyMod_one]
      have h : (5 : ℚ)/4 = 1/4 + (1 : ℤ) := by norm_num
      rw [h, Int.fract_add_int]
    have h2 : pyMod (-(1/4) : ℚ) 1 = pyMod ((3 : ℚ)/4) 1 := by
      rw [pyMod_one, pyMod_one]
      have h : (-(1/4) : ℚ) = 3/4 + (-1 : ℤ) := by norm_num
      rw [h, Int.fract_add_int]
    simp only [sample_texture]
    rw [h1, h2]

/-- C8: for a positive-size 8-bit image, the sampler reads exactly the
pixel at column `min(⌊u_wrapped·w⌋, w-1)` and row
`min(⌊(1-v_wrapped)·h⌋, h-1)` (v flipped), returns the channels divided
by 255, and every returned component lies in `[0, 1]`. -/
theorem c8_sample_pixel_formula (image : PyImage) (u v : ℚ)
    (hw : 0 < image.w) (hh : 0 < image.h)
    (hpix : ∀ x y : ℤ, (image.pix x y).1 ≤ 255 ∧ (image.pix x y).2.1 ≤ 255 ∧
      (image.pix x y).2.2 ≤ 255) :
    sample_texture image u v = sampleSpec image u v ∧
      (0 ≤ (sample_texture image u v).1 ∧ (sample_texture image u v).1 ≤ 1) ∧
      (0 ≤ (sample_texture image u v).2.1 ∧ (sample_texture image u v).2.1 ≤ 1) ∧
      (0 ≤ (sample_texture image u v).2.2 ∧ (sample_texture image u v).2.2 ≤ 1) := by
  have hu : 0 ≤ pyMod u 1 := by
    rw [pyMod_one]
    exact Int.fract_nonneg u
  have hv1 : pyMod v 1 < 1 := by
    rw [pyMod_one]
    exact Int.fract_lt_one v
  have htu : pyTrunc (pyMod u 1 * (image.w : ℚ)) = ⌊pyMod u 1 * (image.w : ℚ)⌋ :=
    if_pos (mul_nonneg hu (by positivity))
  have htv : pyTrunc ((1 - pyMod v 1) * (image.h : ℚ)) = ⌊(1 - pyMod v 1) * (image.h : ℚ)⌋ :=
    if_pos (mul_nonneg (by linarith) (by positivity))
  have key : ∀ n : ℕ, n ≤ 255 → 0 ≤ (n : ℚ)/255 ∧ (n : ℚ)/255 ≤ 1 := by
    intro n hn
    constructor
    · positivity
    · rw [div_le_one (by norm_num)]
      exact_mod_cast hn
  refine ⟨?_, key _ (hpix _ _).1, key _ (hpix _ _).2.1, key _ (hpix _ _).2.2⟩
  simp only [sample_texture, sampleSpec]
  rw [htu, htv]

/-- Witness for C8 at the constant 2×2 image and `u = v = 1/4`. -/
theorem c8_sample_pixel_formula_witness :
    0 < imgW.w ∧ 0 < imgW.h ∧
      (∀ x y : ℤ, (imgW.pix x y).1 ≤ 255 ∧ (imgW.pix x y).2.1 ≤ 255 ∧
        (imgW.pix x y).2.2 ≤ 255) ∧
      (sample_texture imgW (1/4) (1/4) = sampleSpec imgW (1/4) (1/4) ∧
        (0 ≤ (sample_texture imgW (1/4) (1/4)).1 ∧ (sample_texture imgW (1/4) (1/4)).1 ≤ 1) ∧
        (0 ≤ (sample_texture imgW (1/4) (1/4)).2.1 ∧ (sample_texture imgW (1/4) (1/4)).2.1 ≤ 1) ∧
        (0 ≤ (sample_texture imgW (1/4) (1/4)).2.2 ∧ (sample_texture imgW (1/4) (1/4)).2.2 ≤ 1)) :=
  ⟨by decide, by decide,
    fun _ _ => show (10 : ℕ) ≤ 255 ∧ (20 : ℕ) ≤ 255 ∧ (255 : ℕ) ≤ 255 by decide,
    c8_sample_pixel_formula imgW (1/4) (1/4) (by decide) (by decide)
      (fun _ _ => show (10 : ℕ) ≤ 255 ∧ (20 : ℕ) ≤ 255 ∧ (255 : ℕ) ≤ 255 by decide)⟩

lemma bool_eq_false {b : Bool} (h : ¬(b = true)) : b = false := by
  cases b
  · rfl
  · exact absurd rfl h

/-- Exhaustive description of a successful `parseObjLine` step: exactly
one branch of the source's `if/elif` chain fired, with its precise effect
on the state. -/
lemma parseObjLine_ok_cases {s : OBJ} {l : List Char} {s' : OBJ}
    (h : parseObjLine s l = .ok s') :
    (∃ p, "v ".data.isPrefixOf l = true ∧ vBody (strip l) = .ok p ∧
        s' = { s with positions := s.positions ++ [p],
                      out_lines := s.out_lines ++ [.tag .v s.positions.length] }) ∨
    ("v ".data.isPrefixOf l = false ∧ "vt ".data.isPrefixOf l = true ∧
      ∃ t, vtBody (strip l) = .ok t ∧
        s' = { s with texcoords := s.texcoords ++ [t],
                      out_lines := s.out_lines ++ [.tag .vt s.texcoords.length] }) ∨
    ("v ".data.isPrefixOf l = false ∧ "vt ".data.isPrefixOf l = false ∧
      "vn ".data.isPrefixOf l = true ∧ ∃ n, vnBody (strip l) = .ok n ∧
        s' = { s with normals := s.normals ++ [n],
                      out_lines := s.out_lines ++ [.tag .vn s.normals.length] }) ∨
    ("v ".data.isPrefixOf l = false ∧ "vt ".data.isPrefixOf l = false ∧
      "vn ".data.isPrefixOf l = false ∧
      "usemtl".data.isPrefixOf (lower (strip l)) = true ∧
        s' = { s with current_material := usemtlVal (strip l),
                      out_lines := s.out_lines ++ [.verbatim l] }) ∨
    ("v ".data.isPrefixOf l = false ∧ "vt ".data.isPrefixOf l = false ∧
      "vn ".data.isPrefixOf l = false ∧
      "usemtl".data.isPrefixOf (lower (strip l)) = false ∧
      "f ".data.isPrefixOf (lower (strip l)) = true ∧
      ∃ fvs, ((splitWS (strip l)).drop 1).mapM parseFaceVert = .ok fvs ∧
        s' = { s with faces := s.faces ++
                        [{ vertices := fvs, material := s.current_material, line := strip l }],
                      out_lines := s.out_lines ++ [.verbatim l] }) ∨
    ("v ".data.isPrefixOf l = false ∧ "vt ".data.isPrefixOf l = false ∧
      "vn ".data.isPrefixOf l = false ∧
      "usemtl".data.isPrefixOf (lower (strip l)) = false ∧
      "f ".data.isPrefixOf (lower (strip l)) = false ∧
      s' = { s with out_lines := s.out_lines ++ [.verbatim l] }) := by
  simp only [parseObjLine] at h
  by_cases h1 : "v ".data.isPrefixOf l = true
  · rw [if_pos h1] at h
    cases hb : vBody (strip l) with
    | error e =>
      rw [hb] at h
      exact Except.noConfusion h
    | ok p =>
      rw [hb] at h
      rw [Except.ok.injEq] at h
      exact Or.inl ⟨p, h1, rfl, h.symm⟩
  · have h1' : "v ".data.isPrefixOf l = false := bool_eq_false h1
    rw [if_neg h1] at h
    by_cases h2 : "vt ".data.isPrefixOf l = true
    · rw [if_pos h2] at h
      cases hb : vtBody (strip l) with
      | error e =>
        rw [hb] at h
        exact Except.noConfusion h
      | ok t =>
        rw [hb] at h
        rw [Except.ok.injEq] at h
        exact Or.inr (Or.inl ⟨h1', h2, t, rfl, h.symm⟩)
    · have h2' : "vt ".data.isPrefixOf l = false := bool_eq_false h2
      rw [if_neg h2] at h
      by_cases h3 : "vn ".data.isPrefixOf l = true
      · rw [if_pos h3] at h
        cases hb : vnBody (strip l) with
        | error e =>
          rw [hb] at h
          exact Except.noConfusion h
        | ok n =>
          rw [hb] at h
          rw [Except.ok.injEq] at h
          exact Or.inr (Or.inr (Or.inl ⟨h1', h2', h3, n, rfl, h.symm⟩))
      · have h3' : "vn ".data.isPrefixOf l = false := bool_eq_false h3
        rw [if_neg h3] at h
        by_cases h4 : "usemtl".data.isPrefixOf (lower (strip l)) = true
        · rw [if_pos h4] at h
          cases hs : splitN1 (strip l) with
          | nil =>
            rw [hs] at h
            exact Except.noConfusion h
          | cons a as =>
            cases as with
            | nil =>
              rw [hs] at h
              exact Except.noConfusion h
            | cons b t =>
              rw [hs] at h
              rw [Except.ok.injEq] at h
              refine Or.inr (Or.inr (Or.inr (Or.inl ⟨h1', h2', h3', h4, ?_⟩)))
              rw [← h]
              have hv : usemtlVal (strip l) = b := by
                unfold usemtlVal
                rw [hs]
              rw [hv]
        · have h4' : "usemtl".data.isPrefixOf (lower (strip l)) = false := bool_eq_false h4
          rw [if_neg h4] at h
          by_cases h5 : "f ".data.isPrefixOf (lower (strip l)) = true
          · rw [if_pos h5] at h
            cases hb : ((splitWS (strip l)).drop 1).mapM parseFaceVert with
            | error e =>
              rw [hb] at h
              exact Except.noConfusion h
            | ok fvs =>
              rw [hb] at h
              rw [Except.ok.injEq] at h
              exact Or.inr (Or.inr (Or.inr (Or.inr (Or.inl
                ⟨h1', h2', h3', h4', h5, fvs, rfl, h.symm⟩))))
          · have h5' : "f ".data.isPrefixOf (lower (strip l)) = false := bool_eq_false h5
            rw [if_neg h5] at h
            rw [Except.ok.injEq] at h
            exact Or.inr (Or.inr (Or.inr (Or.inr (Or.inr
              ⟨h1', h2', h3', h4', h5', h.symm⟩))))

/-- The materials of the parsed faces are exactly the reference scan's
output, appended to whatever faces the starting state already had. -/
lemma parseObjLines_faces (lines : List (List Char)) :
    ∀ s m : OBJ, parseObjLines s lines = .ok m →
      m.faces.map (fun f => f.material) =
        s.faces.map (fun f => f.material) ++ faceMatsSpec s.current_material lines := by
  induction lines with
  | nil =>
    intro s m h
    simp only [parseObjLines] at h
    rw [Except.ok.injEq] at h
    rw [← h]
    simp [faceMatsSpec]
  | cons l ls ih =>
    intro s m h
    simp only [parseObjLines] at h
    cases hc : parseObjLine s l with
    | error e =>
      rw [hc] at h
      exact Except.noConfusion h
    | ok s' =>
      rw [hc] at h
      have hrec := ih s' m h
      rcases parseObjLine_ok_cases hc with
        ⟨p, h1, _, hs'⟩ | ⟨h1, h2, t, _, hs'⟩ | ⟨h1, h2, h3, n, _, hs'⟩ |
        ⟨h1, h2, h3, h4, hs'⟩ | ⟨h1, h2, h3, h4, h5, fvs, _, hs'⟩ |
        ⟨h1, h2, h3, h4, h5, hs'⟩
      · rw [hs'] at hrec
        simp only [faceMatsSpec]
        rw [if_pos h1]
        exact hrec
      · rw [hs'] at hrec
        simp only [faceMatsSpec]
        rw [if_neg (by simp [h1]), if_pos h2]
        exact hrec
      · rw [hs'] at hrec
        simp only [faceMatsSpec]
        rw [if_neg (by simp [h1]), if_neg (by simp [h2]), if_pos h3]
        exact hrec
      · rw [hs'] at hrec
        simp only [faceMatsSpec]
        rw [if_neg (by simp [h1]), if_neg (by simp [h2]), if_neg (by simp [h3]), if_pos h4]
        exact hrec
      · rw [hs'] at hrec
        simp only [faceMatsSpec]
        rw [if_neg (by simp [h1]), if_neg (by simp [h2]), if_neg (by simp [h3]),
          if_neg (by simp [h4]), if_pos h5]
        simp only [List.map_append, List.map_cons, List.map_nil] at hrec
        rw [hrec, List.append_assoc]
        rfl
      · rw [hs'] at hrec
        simp only [faceMatsSpec]
        rw [if_neg (by simp [h1]), if_neg (by simp [h2]), if_neg (by simp [h3]),
          if_neg (by simp [h4]), if_neg (by simp [h5])]
        exact hrec

/-- C5: for every mesh text the parser accepts, each face carries the
material set by the last preceding `usemtl` line (the empty string before
any), as computed by the reference scan `faceMatsSpec`; a `usemtl` line
sets the state to the trimmed remainder of the line and it applies to
every following face until the next `usemtl`. -/
theorem c5_material_scoping (text : List Char) (m : OBJ)
    (h : parse_obj text = .ok m) :
    m.faces.map (fun f => f.material) = faceMatsSpec [] (linesKeepEnds text) := by
  have hrec := parseObjLines_faces (linesKeepEnds text) {} m h
  simpa using hrec

/-- Witness for C5 at the claim's own scenario: `usemtl A`, two faces,
`usemtl B`, one face — materials `A`, `A`, `B`. -/
theorem c5_material_scoping_witness :
    parse_obj "usemtl A\nf 1\nf 1\nusemtl B\nf 1\n".data =
        .ok (okOBJ (parse_obj "usemtl A\nf 1\nf 1\nusemtl B\nf 1\n".data)) ∧
      (okOBJ (parse_obj "usemtl A\nf 1\nf 1\nusemtl B\nf 1\n".data)).faces.map
          (fun f => f.material) = ["A".data, "A".data, "B".data] :=
  ⟨by decide,
    (c5_material_scoping "usemtl A\nf 1\nf 1\nusemtl B\nf 1\n".data
      (okOBJ (parse_obj "usemtl A\nf 1\nf 1\nusemtl B\nf 1\n".data)) (by decide)).trans
      (by decide)⟩

/-- Splitting into lines keeps every byte: the flattening of
`linesKeepEnds` is the original text. -/
lemma flatten_linesKeepEnds (cs : List Char) : (linesKeepEnds cs).flatten = cs := by
  induction cs with
  | nil => rfl
  | cons c t ih =>
    show (lineStep c (linesKeepEnds t)).flatten = c :: t
    unfold lineStep
    by_cases hc : c = '\n'
    · subst hc
      rw [if_pos rfl]
      simp [ih]
    · rw [if_neg hc]
      cases hL : linesKeepEnds t with
      | nil =>
        rw [hL] at ih
        simp at ih
        simp [← ih]
      | cons a L' =>
        rw [hL] at ih
        simp [← ih]

lemma listGet?_append_left {α : Type} (l₁ l₂ : List α) :
    ∀ i, i < l₁.length → (l₁ ++ l₂).get? i = l₁.get? i := by
  induction l₁ with
  | nil =>
    intro i h
    simp at h
  | cons a t ih =>
    intro i h
    cases i with
    | zero => rfl
    | succ j => exact ih j (Nat.lt_of_succ_lt_succ h)

lemma listGet?_concat_len {α : Type} (l : List α) (a : α) :
    (l ++ [a]).get? l.length = some a := by
  induction l with
  | nil => rfl
  | cons b t ih => exact ih

/-- Round-trip induction: a successful parse leaves the entities of the
starting state untouched at their indices, appends shadow records for the
new lines, and — when every line is canonical — those records emit the
very lines that were read. -/
lemma parseObjLines_roundtrip (lines : List (List Char)) :
    ∀ s m : OBJ, parseObjLines s lines = .ok m →
      (∀ l ∈ lines, canonicalLine l = true) →
      (∀ i, i < s.positions.length → m.positions.get? i = s.positions.get? i) ∧
      (∀ i, i < s.texcoords.length → m.texcoords.get? i = s.texcoords.get? i) ∧
      (∀ i, i < s.normals.length → m.normals.get? i = s.normals.get? i) ∧
      ∃ Δ, m.out_lines = s.out_lines ++ Δ ∧ (Δ.map (emitRec m)).flatten = lines.flatten := by
  induction lines with
  | nil =>
    intro s m h _
    simp only [parseObjLines] at h
    rw [Except.ok.injEq] at h
    rw [← h]
    exact ⟨fun _ _ => rfl, fun _ _ => rfl, fun _ _ => rfl, [], by simp, rfl⟩
  | cons l ls ih =>
    intro s m h hcanon
    simp only [parseObjLines] at h
    cases hc : parseObjLine s l with
    | error e =>
      rw [hc] at h
      exact Except.noConfusion h
    | ok s' =>
      rw [hc] at h
      obtain ⟨stabP, stabT, stabN, Δ', hout, hemit⟩ :=
        ih s' m h (fun x hx => hcanon x (List.mem_cons_of_mem l hx))
      have hcl : canonicalLine l = true := hcanon l (List.mem_cons_self l ls)
      rcases parseObjLine_ok_cases hc with
        ⟨p, h1, hb, hs'⟩ | ⟨h1, h2, t, hb, hs'⟩ | ⟨h1, h2, h3, n, hb, hs'⟩ |
        ⟨h1, h2, h3, h4, hs'⟩ | ⟨h1, h2, h3, h4, h5, fvs, hb, hs'⟩ |
        ⟨h1, h2, h3, h4, h5, hs'⟩
      · -- `v ` line: new position appended, tagged record emitted canonically
        have hlenP : s.positions.length < s'.positions.length := by
          rw [hs']
          simp
        refine ⟨?_, ?_, ?_, .tag .v s.positions.length :: Δ', ?_, ?_⟩
        · intro i hi
          rw [stabP i (Nat.lt_trans hi hlenP), hs']
          exact listGet?_append_left _ _ i hi
        · intro i hi
          rw [stabT i (by rw [hs']; exact hi), hs']
        · intro i hi
          rw [stabN i (by rw [hs']; exact hi), hs']
        · rw [hout, hs']
          simp
        · have hgot : m.positions.get? s.positions.length = some p := by
            rw [stabP s.positions.length hlenP, hs']
            exact listGet?_concat_len _ _
          have hemitl : emitRec m (.tag .v s.positions.length) = l := by
            simp only [emitRec, hgot]
            simp only [canonicalLine] at hcl
            rw [if_pos h1, hb] at hcl
            exact eq_of_beq hcl
          simp only [List.map_cons, List.flatten_cons, hemitl, hemit, List.flatten_cons]
      · -- `vt ` line
        have hlenT : s.texcoords.length < s'.texcoords.length := by
          rw [hs']
          simp
        refine ⟨?_, ?_, ?_, .tag .vt s.texcoords.length :: Δ', ?_, ?_⟩
        · intro i hi
          rw [stabP i (by rw [hs']; exact hi), hs']
        · intro i hi
          rw [stabT i (Nat.lt_trans hi hlenT), hs']
          exact listGet?_append_left _ _ i hi
        · intro i hi
          rw [stabN i (by rw [hs']; exact hi), hs']
        · rw [hout, hs']
          simp
        · have hgot : m.texcoords.get? s.texcoords.length = some t := by
            rw [stabT s.texcoords.length hlenT, hs']
            exact listGet?_concat_len _ _
          have hemitl : emitRec m (.tag .vt s.texcoords.length) = l := by
            simp only [emitRec, hgot]
            simp only [canonicalLine] at hcl
            rw [if_neg (by simp [h1]), if_pos h2, hb] at hcl
            exact eq_of_beq hcl
          simp only [List.map_cons, List.flatten_cons, hemitl, hemit, List.flatten_cons]
      · -- `vn ` line
        have hlenN : s.normals.length < s'.normals.length := by
          rw [hs']
          simp
        refine ⟨?_, ?_, ?_, .tag .vn s.normals.length :: Δ', ?_, ?_⟩
        · intro i hi
          rw [stabP i (by rw [hs']; exact hi), hs']
        · intro i hi
          rw [stabT i (by rw [hs']; exact hi), hs']
        · intro i hi
          rw [stabN i (Nat.lt_trans hi hlenN), hs']
          exact listGet?_append_left _ _ i hi
        · rw [hout, hs']
          simp
        · have hgot : m.normals.get? s.normals.length = some n := by
            rw [stabN s.normals.length hlenN, hs']
            exact listGet?_concat_len _ _
          have hemitl : emitRec m (.tag .vn s.normals.length) = l := by
            simp only [emitRec, hgot]
            simp only [canonicalLine] at hcl
            rw [if_neg (by simp [h1]), if_neg (by simp [h2]), if_pos h3, hb] at hcl
            exact eq_of_beq hcl
          simp only [List.map_cons, List.flatten_cons, hemitl, hemit, List.flatten_cons]
      · -- `usemtl` line: stored verbatim
        refine ⟨?_, ?_, ?_, .verbatim l :: Δ', ?_, ?_⟩
        · intro i hi
          rw [stabP i (by rw [hs']; exact hi), hs']
        · intro i hi
          rw [stabT i (by rw [hs']; exact hi), hs']
        · intro i hi
          rw [stabN i (by rw [hs']; exact hi), hs']
        · rw [hout, hs']
          simp
        · simp only [List.map_cons, List.flatten_cons, emitRec, hemit]
      · -- `f ` line: stored verbatim
        refine ⟨?_, ?_, ?_, .verbatim l :: Δ', ?_, ?_⟩
        · intro i hi
          rw [stabP i (by rw [hs']; exact hi), hs']
        · intro i hi
          rw [stabT i (by rw [hs']; exact hi), hs']
        · intro i hi
          rw [stabN i (by rw [hs']; exact hi), hs']
        · rw [hout, hs']
          simp
        · simp only [List.map_cons, List.flatten_cons, emitRec, hemit]
      · -- any other line: stored verbatim
        refine ⟨?_, ?_, ?_, .verbatim l :: Δ', ?_, ?_⟩
        · intro i hi
          rw [stabP i (by rw [hs']; exact hi), hs']
        · intro i hi
          rw [stabT i (by rw [hs']; exact hi), hs']
        · intro i hi
          rw [stabN i (by rw [hs']; exact hi), hs']
        · rw [hout, hs']
          simp
        · simp only [List.map_cons, List.flatten_cons, emitRec, hemit]

/-- C1 (counterexample to the claim as stated): the mesh text `v 1 2 3`
parses successfully and no baking ever occurs, yet replaying the shadow
sequence emits `v 1.0 2.0 3.0` — the tagged record stores only the parsed
float values, so the original numeral spelling is lost and the output is
not byte-identical. -/
theorem c1_round_trip_counterexample :
    (parse_obj "v 1 2 3\n".data).map write_obj = .ok "v 1.0 2.0 3.0\n".data ∧
      "v 1.0 2.0 3.0\n".data ≠ "v 1 2 3\n".data := by decide

/-- C1 (amended): replaying the shadow sequence reproduces the input
byte-for-byte for every accepted mesh text whose tagged (`v `/`vt `/`vn `)
lines are canonical (each equals the re-rendering of its parsed entity);
verbatim records always reproduce their lines exactly. -/
theorem c1_round_trip_canonical (text : List Char) (m : OBJ)
    (h : parse_obj text = .ok m)
    (hcanon : ∀ l ∈ linesKeepEnds text, canonicalLine l = true) :
    write_obj m = text := by
  obtain ⟨_, _, _, Δ, hout, hemit⟩ :=
    parseObjLines_roundtrip (linesKeepEnds text) {} m h hcanon
  have hΔ : m.out_lines = Δ := by
    rw [hout]
    rfl
  unfold write_obj
  rw [hΔ, hemit, flatten_linesKeepEnds]

/-- Witness for C1 (amended): a mesh with canonical `v`/`vt`/`vn` lines,
a comment, a `usemtl` and a face round-trips byte-for-byte. -/
theorem c1_round_trip_canonical_witness :
    parse_obj "# c\nv 1.0 2.0 3.0\nvt 0.25 0.75\nvn 0.0 0.0 1.0\nusemtl m\nf 1/1/1 2/2/2 3/3/3\n".data =
        .ok (okOBJ (parse_obj "# c\nv 1.0 2.0 3.0\nvt 0.25 0.75\nvn 0.0 0.0 1.0\nusemtl m\nf 1/1/1 2/2/2 3/3/3\n".data)) ∧
      (∀ l ∈ linesKeepEnds "# c\nv 1.0 2.0 3.0\nvt 0.25 0.75\nvn 0.0 0.0 1.0\nusemtl m\nf 1/1/1 2/2/2 3/3/3\n".data,
        canonicalLine l = true) ∧
      write_obj (okOBJ (parse_obj "# c\nv 1.0 2.0 3.0\nvt 0.25 0.75\nvn 0.0 0.0 1.0\nusemtl m\nf 1/1/1 2/2/2 3/3/3\n".data)) =
        "# c\nv 1.0 2.0 3.0\nvt 0.25 0.75\nvn 0.0 0.0 1.0\nusemtl m\nf 1/1/1 2/2/2 3/3/3\n".data :=
  ⟨by decide, by decide,
    c1_round_trip_canonical
      "# c\nv 1.0 2.0 3.0\nvt 0.25 0.75\nvn 0.0 0.0 1.0\nusemtl m\nf 1/1/1 2/2/2 3/3/3\n".data
      (okOBJ (parse_obj "# c\nv 1.0 2.0 3.0\nvt 0.25 0.75\nvn 0.0 0.0 1.0\nusemtl m\nf 1/1/1 2/2/2 3/3/3\n".data))
      (by decide) (by decide)⟩

/-! ## Lemmas for C9: `parse_mtl_file` against `parse_mtl` -/

lemma dictUpd_dictUpd_same (k v p : List Char) :
    ∀ d, dictUpd k v (dictUpd k p d) = dictUpd k v d := by
  intro d
  induction d with
  | nil => simp [dictUpd]
  | cons a rest ih =>
    by_cases h : a.1 = k
    · simp [dictUpd, h]
    · simp [dictUpd, h, ih]

lemma updLast_append (f : Material → Material) :
    ∀ (i : List Material) (lm : Material), updLast f (i ++ [lm]) = i ++ [f lm] := by
  intro i
  induction i with
  | nil => intro lm; rfl
  | cons a t ih =>
    intro lm
    cases t with
    | nil => rfl
    | cons b t' =>
      show updLast f (a :: (b :: t' ++ [lm])) = _
      rw [show updLast f (a :: (b :: t' ++ [lm])) = a :: updLast f (b :: t' ++ [lm]) from rfl,
        ih lm]
      rfl

lemma matToTex_append (i : List Material) (x : Material) :
    matToTex (i ++ [x]) =
      match x.map_Kd with
      | some p => dictUpd x.name p (matToTex i)
      | none => matToTex i := by
  unfold matToTex
  rw [List.foldl_append]
  rfl

lemma dropWhile_head_false {p : Char → Bool} :
    ∀ {l : List Char} {c t}, l.dropWhile p = c :: t → p c = false := by
  intro l
  induction l with
  | nil =>
    intro c t h
    exact List.noConfusion h
  | cons a l' ih =>
    intro c t h
    by_cases ha : p a = true
    · rw [List.dropWhile_cons, if_pos ha] at h
      exact ih h
    · rw [List.dropWhile_cons, if_neg ha] at h
      injection h with h1 _
      rw [← h1]
      exact bool_eq_false ha

/-- `strip` output has no leading whitespace. -/
lemma dropWhile_strip (l : List Char) : (strip l).dropWhile isWS = strip l := by
  unfold strip
  cases hd : lstrip l with
  | nil => rfl
  | cons c t =>
    have hc : isWS c = false := dropWhile_head_false (p := isWS) hd
    rcases rstrip_cons_head hc t with ⟨r, hr⟩
    rw [hr]
    simp [List.dropWhile_cons, hc]

/-- The head of a two-or-more-way `split(None, 1)` of a stripped string
is its first whitespace-free token. -/
lemma splitN1_head {cs : List Char} (hl : cs.dropWhile isWS = cs) :
    ∀ {k0 : List Char} {rest : List (List Char)}, splitN1 cs = k0 :: rest →
      k0 = cs.takeWhile notWS := by
  intro k0 rest h
  unfold splitN1 at h
  rw [hl] at h
  by_cases h1 : (cs.takeWhile notWS).isEmpty
  · rw [if_pos h1] at h
    exact List.noConfusion h
  · rw [if_neg h1] at h
    by_cases h2 : (((cs.dropWhile notWS)).dropWhile isWS).isEmpty
    · rw [if_pos h2] at h
      injection h with h3 _
      exact h3.symm
    · rw [if_neg h2] at h
      injection h with h3 _
      exact h3.symm

/-- Lowercasing leaves the six whitespace characters unchanged. -/
lemma toLower_of_isWS {c : Char} (h : isWS c = true) : Char.toLower c = c := by
  unfold isWS at h
  simp only [Bool.or_eq_true, decide_eq_true_eq] at h
  rcases h with ((((h | h) | h) | h) | h) | h <;> subst h <;> decide

/-- If an all-non-whitespace word starts the lowered string, it starts the
lowered first token as well. -/
lemma prefix_lower_takeWhile (p : List Char) (hp : ∀ a ∈ p, notWS a = true) :
    ∀ cs : List Char, p.isPrefixOf (lower cs) = true →
      p.isPrefixOf (lower (cs.takeWhile notWS)) = true := by
  induction p with
  | nil =>
    intro cs _
    exact List.isPrefixOf_iff_prefix.mpr List.nil_prefix
  | cons a p' ih =>
    intro cs h
    cases cs with
    | nil => simp [lower, List.isPrefixOf] at h
    | cons c cs' =>
      simp only [lower, List.map_cons, List.isPrefixOf, Bool.and_eq_true] at h
      obtain ⟨ha, hrest⟩ := h
      by_cases hws : isWS c = true
      · exfalso
        have hc : Char.toLower c = c := toLower_of_isWS hws
        have ha' : a = c := (eq_of_beq ha).trans hc
        have hna := hp a (List.mem_cons_self a p')
        rw [ha'] at hna
        unfold notWS at hna
        rw [hws] at hna
        exact Bool.noConfusion hna
      · have hTW : (c :: cs').takeWhile notWS = c :: cs'.takeWhile notWS := by
          rw [List.takeWhile_cons, if_pos]
          unfold notWS
          rw [bool_eq_false hws]
          rfl
        rw [hTW]
        simp only [lower, List.map_cons, List.isPrefixOf, Bool.and_eq_true]
        exact ⟨ha, ih (fun x hx => hp x (List.mem_cons_of_mem a hx)) cs' hrest⟩

/-- Conversely, a word starting the lowered first token starts the whole
lowered string. -/
lemma prefix_of_prefix_takeWhile (p cs : List Char)
    (h : p.isPrefixOf (lower (cs.takeWhile notWS)) = true) :
    p.isPrefixOf (lower cs) = true := by
  have h1 : (cs.takeWhile notWS) <+: cs := List.takeWhile_prefix _
  have h2 : lower (cs.takeWhile notWS) <+: lower cs := h1.map Char.toLower
  exact List.isPrefixOf_iff_prefix.mpr ((List.isPrefixOf_iff_prefix.mp h).trans h2)

lemma goodLineB_spec {l : List Char} (h : goodLineB l = true) :
    strictExtOf "newmtl".data (lower ((strip l).takeWhile notWS)) = false ∧
      strictExtOf "map_kd".data (lower ((strip l).takeWhile notWS)) = false := by
  unfold goodLineB at h
  rw [Bool.and_eq_true, Bool.not_eq_true', Bool.not_eq_true'] at h
  exact h

/-- When the lowered key is exactly `p`, the lowered line starts with `p`
(the prefix test of `parse_mtl_file` fires). -/
lemma pref_true_of_key_eq {l k0 : List Char} {rest : List (List Char)}
    (hs : splitN1 (strip l) = k0 :: rest) {p : List Char} (hk : lower k0 = p) :
    p.isPrefixOf (lower (strip l)) = true := by
  have hk0 : k0 = (strip l).takeWhile notWS := splitN1_head (dropWhile_strip l) hs
  apply prefix_of_prefix_takeWhile
  rw [← hk0, hk]
  exact List.isPrefixOf_iff_prefix.mpr List.prefix_rfl

/-- When the lowered key differs from `p` and does not strictly extend it,
the lowered line does not start with `p` either (the prefix test of
`parse_mtl_file` does not fire). -/
lemma pref_false_of_key_ne {l k0 : List Char} {rest : List (List Char)}
    (hs : splitN1 (strip l) = k0 :: rest) {p : List Char}
    (hp : ∀ a ∈ p, notWS a = true) (hk : lower k0 ≠ p)
    (hgood : strictExtOf p (lower ((strip l).takeWhile notWS)) = false) :
    p.isPrefixOf (lower (strip l)) = false := by
  have hk0 : k0 = (strip l).takeWhile notWS := splitN1_head (dropWhile_strip l) hs
  cases hb : p.isPrefixOf (lower (strip l)) with
  | false => rfl
  | true =>
    exfalso
    have h1 : p.isPrefixOf (lower ((strip l).takeWhile notWS)) = true :=
      prefix_lower_takeWhile p hp _ hb
    unfold strictExtOf at hgood
    rw [h1, Bool.true_and] at hgood
    have h2 : (lower ((strip l).takeWhile notWS) == p) = true := by
      cases hbe : lower ((strip l).takeWhile notWS) == p with
      | true => rfl
      | false =>
        rw [hbe] at hgood
        exact Bool.noConfusion hgood
    apply hk
    rw [hk0]
    exact eq_of_beq h2

/-- Blank and comment lines trip neither prefix test of `parse_mtl_file`. -/
lemma pref_false_of_blank {l : List Char}
    (hC : ((strip l).isEmpty || "#".data.isPrefixOf (strip l)) = true) :
    "newmtl".data.isPrefixOf (lower (strip l)) = false ∧
      "map_kd".data.isPrefixOf (lower (strip l)) = false := by
  rw [Bool.or_eq_true] at hC
  rcases hC with hC | hC
  · have hnil : strip l = [] := by
      cases hsl : strip l with
      | nil => rfl
      | cons a t =>
        rw [hsl] at hC
        exact Bool.noConfusion hC
    rw [hnil]
    exact ⟨by decide, by decide⟩
  · rcases List.isPrefixOf_iff_prefix.mp hC with ⟨t, ht⟩
    rw [← ht]
    have hlow : Char.toLower '#' = '#' := rfl
    constructor <;> simp [lower, List.isPrefixOf, hlow]

/-- `parse_mtl_file` ignores a line on which neither branch guard holds. -/
lemma mtlFileLine_skip {st : List (List Char × List Char) × Option (List Char)} {l : List Char}
    (h1 : "newmtl".data.isPrefixOf (lower (strip l)) = false)
    (h2 : (st.2.isSome && "map_kd".data.isPrefixOf (lower (strip l))) = false) :
    mtlFileLine st l = .ok st := by
  unfold mtlFileLine
  rw [if_neg (by simp [h1]), if_neg (by simp [h2])]

/-- `parse_mtl_file` on a `newmtl`-prefixed line with a value. -/
lemma mtlFileLine_newmtl {st : List (List Char × List Char) × Option (List Char)}
    {l k0 v : List Char} {t : List (List Char)}
    (hpref : "newmtl".data.isPrefixOf (lower (strip l)) = true)
    (hs : splitN1 (strip l) = k0 :: v :: t) :
    mtlFileLine st l = .ok (st.1, some v) := by
  unfold mtlFileLine
  rw [if_pos (by simp [hpref]), hs]

/-- `parse_mtl_file` on a `map_kd`-prefixed line with a current material. -/
lemma mtlFileLine_mapkd {st : List (List Char × List Char) × Option (List Char)}
    {l cur k0 v : List Char} {t : List (List Char)}
    (h1 : "newmtl".data.isPrefixOf (lower (strip l)) = false)
    (hcur : st.2 = some cur)
    (h2 : "map_kd".data.isPrefixOf (lower (strip l)) = true)
    (hs : splitN1 (strip l) = k0 :: v :: t) :
    mtlFileLine st l = .ok (dictUpd cur v st.1, st.2) := by
  unfold mtlFileLine
  rw [if_neg (by simp [h1]), hcur, if_pos (by simp [h2]), hs]
  rfl

/-- Exhaustive description of a successful `parseMtlLine` step, recording
everything the comparison with `parse_mtl_file` needs: which branch
fired, and its effect on `materials` and `hasCurrent` (every update of a
recognized or unknown directive other than `map_Kd` preserves the name
and the `map_Kd` field of the current material). -/
lemma parseMtlLine_ok_cases {s : MTL} {l : List Char} {s₁ : MTL}
    (hm : parseMtlLine s l = .ok s₁) :
    (s₁.materials = s.materials ∧ s₁.hasCurrent = s.hasCurrent ∧
      (((strip l).isEmpty || "#".data.isPrefixOf (strip l)) = true ∨
        ∃ k0 v t, splitN1 (strip l) = k0 :: v :: t ∧ lower k0 ≠ "newmtl".data ∧
          s.hasCurrent = false)) ∨
    (∃ k0 v t, splitN1 (strip l) = k0 :: v :: t ∧
      ((strip l).isEmpty || "#".data.isPrefixOf (strip l)) = false ∧
      ((lower k0 = "newmtl".data ∧
          s₁.materials = s.materials ++ [{ name := v }] ∧ s₁.hasCurrent = true) ∨
       (lower k0 ≠ "newmtl".data ∧ s.hasCurrent = true ∧ s₁.hasCurrent = true ∧
         ((lower k0 = "map_kd".data ∧
             s₁.materials = updLast (fun m => { m with map_Kd := some v }) s.materials) ∨
          (lower k0 ≠ "map_kd".data ∧ ∃ f : Material → Material,
             (∀ m : Material, (f m).name = m.name ∧ (f m).map_Kd = m.map_Kd) ∧
             s₁.materials = updLast f s.materials))))) := by
  simp only [parseMtlLine] at hm
  by_cases hC : ((strip l).isEmpty || ['#'].isPrefixOf (strip l)) = true
  · rw [if_pos hC] at hm
    rw [Except.ok.injEq] at hm
    exact Or.inl ⟨by rw [← hm], by rw [← hm], Or.inl hC⟩
  · have hC' := bool_eq_false hC
    rw [if_neg hC] at hm
    cases hsp : splitN1 (strip l) with
    | nil =>
      rw [hsp] at hm
      exact Except.noConfusion hm
    | cons k0 as =>
      cases as with
      | nil =>
        rw [hsp] at hm
        exact Except.noConfusion hm
      | cons v t =>
        rw [hsp] at hm
        dsimp only at hm
        by_cases hk : lower k0 = ['n', 'e', 'w', 'm', 't', 'l']
        · rw [if_pos hk] at hm
          rw [Except.ok.injEq] at hm
          exact Or.inr ⟨k0, v, t, rfl, hC',
            Or.inl ⟨hk, by rw [← hm], by rw [← hm]⟩⟩
        · by_cases hcur : s.hasCurrent = true
          · rw [if_neg hk, if_pos hcur] at hm
            by_cases h01 : lower k0 = ['k', 'a']
            · rw [if_pos h01] at hm
              cases hx : floatList v with
              | none =>
                rw [hx] at hm
                exact Except.noConfusion hm
              | some qs =>
                rw [hx] at hm
                rw [Except.ok.injEq] at hm
                exact Or.inr ⟨k0, v, t, rfl, hC', Or.inr ⟨hk, hcur, by rw [← hm]; exact hcur,
                  Or.inr ⟨by rw [h01]; decide,
                    fun m => { m with ambient := some qs }, fun m => ⟨rfl, rfl⟩, by rw [← hm]⟩⟩⟩
            · rw [if_neg h01] at hm
              by_cases h02 : lower k0 = ['k', 'd']
              · rw [if_pos h02] at hm
                cases hx : floatList v with
                | none =>
                  rw [hx] at hm
                  exact Except.noConfusion hm
                | some qs =>
                  rw [hx] at hm
                  rw [Except.ok.injEq] at hm
                  exact Or.inr ⟨k0, v, t, rfl, hC', Or.inr ⟨hk, hcur, by rw [← hm]; exact hcur,
                    Or.inr ⟨by rw [h02]; decide,
                      fun m => { m with diffuse := some qs }, fun m => ⟨rfl, rfl⟩, by rw [← hm]⟩⟩⟩
              · rw [if_neg h02] at hm
                by_cases h03 : lower k0 = ['k', 's']
                · rw [if_pos h03] at hm
                  cases hx : floatList v with
                  | none =>
                    rw [hx] at hm
                    exact Except.noConfusion hm
                  | some qs =>
                    rw [hx] at hm
                    rw [Except.ok.injEq] at hm
                    exact Or.inr ⟨k0, v, t, rfl, hC', Or.inr ⟨hk, hcur, by rw [← hm]; exact hcur,
                      Or.inr ⟨by rw [h03]; decide,
                        fun m => { m with specular := some qs }, fun m => ⟨rfl, rfl⟩, by rw [← hm]⟩⟩⟩
                · rw [if_neg h03] at hm
                  by_cases h04 : lower k0 = ['n', 's']
                  · rw [if_pos h04] at hm
                    cases hx : pythonFloat v with
                    | none =>
                      rw [hx] at hm
                      exact Except.noConfusion hm
                    | some q =>
                      rw [hx] at hm
                      rw [Except.ok.injEq] at hm
                      exact Or.inr ⟨k0, v, t, rfl, hC', Or.inr ⟨hk, hcur, by rw [← hm]; exact hcur,
                        Or.inr ⟨by rw [h04]; decide,
                          fun m => { m with shininess := some q }, fun m => ⟨rfl, rfl⟩, by rw [← hm]⟩⟩⟩
                  · rw [if_neg h04] at hm
                    by_cases h05 : lower k0 = ['d']
                    · rw [if_pos h05] at hm
                      cases hx : pythonFloat v with
                      | none =>
                        rw [hx] at hm
                        exact Except.noConfusion hm
                      | some q =>
                        rw [hx] at hm
                        rw [Except.ok.injEq] at hm
                        exact Or.inr ⟨k0, v, t, rfl, hC', Or.inr ⟨hk, hcur, by rw [← hm]; exact hcur,
                          Or.inr ⟨by rw [h05]; decide,
                            fun m => { m with alpha := some q }, fun m => ⟨rfl, rfl⟩, by rw [← hm]⟩⟩⟩
                    · rw [if_neg h05] at hm
                      by_cases h06 : lower k0 = ['i', 'l', 'l', 'u', 'm']
                      · rw [if_pos h06] at hm
                        cases hx : pythonInt v with
                        | none =>
                          rw [hx] at hm
                          exact Except.noConfusion hm
                        | some n =>
                          rw [hx] at hm
                          rw [Except.ok.injEq] at hm
                          exact Or.inr ⟨k0, v, t, rfl, hC', Or.inr ⟨hk, hcur, by rw [← hm]; exact hcur,
                            Or.inr ⟨by rw [h06]; decide,
                              fun m => { m with illum := some n }, fun m => ⟨rfl, rfl⟩, by rw [← hm]⟩⟩⟩
                      · rw [if_neg h06] at hm
                        by_cases h07 : lower k0 = ['m', 'a', 'p', '_', 'k', 'a']
                        · rw [if_pos h07] at hm
                          rw [Except.ok.injEq] at hm
                          exact Or.inr ⟨k0, v, t, rfl, hC', Or.inr ⟨hk, hcur, by rw [← hm]; exact hcur,
                            Or.inr ⟨by rw [h07]; decide,
                              fun m => { m with map_Ka := some v }, fun m => ⟨rfl, rfl⟩, by rw [← hm]⟩⟩⟩
                        · rw [if_neg h07] at hm
                          by_cases h08 : lower k0 = ['m', 'a', 'p', '_', 'k', 'd']
                          · rw [if_pos h08] at hm
                            rw [Except.ok.injEq] at hm
                            exact Or.inr ⟨k0, v, t, rfl, hC', Or.inr ⟨hk, hcur, by rw [← hm]; exact hcur,
                              Or.inl ⟨h08, by rw [← hm]⟩⟩⟩
                          · rw [if_neg h08] at hm
                            by_cases h09 : lower k0 = ['m', 'a', 'p', '_', 'k', 's']
                            · rw [if_pos h09] at hm
                              rw [Except.ok.injEq] at hm
                              exact Or.inr ⟨k0, v, t, rfl, hC', Or.inr ⟨hk, hcur, by rw [← hm]; exact hcur,
                                Or.inr ⟨h08,
                                  fun m => { m with map_Ks := some v }, fun m => ⟨rfl, rfl⟩, by rw [← hm]⟩⟩⟩
                            · rw [if_neg h09] at hm
                              by_cases h10 : lower k0 = ['m', 'a', 'p', '_', 'n', 's']
                              · rw [if_pos h10] at hm
                                rw [Except.ok.injEq] at hm
                                exact Or.inr ⟨k0, v, t, rfl, hC', Or.inr ⟨hk, hcur, by rw [← hm]; exact hcur,
                                  Or.inr ⟨h08,
                                    fun m => { m with map_Ns := some v }, fun m => ⟨rfl, rfl⟩, by rw [← hm]⟩⟩⟩
                              · rw [if_neg h10] at hm
                                by_cases h11 : lower k0 = ['m', 'a', 'p', '_', 'd']
                                · rw [if_pos h11] at hm
                                  rw [Except.ok.injEq] at hm
                                  exact Or.inr ⟨k0, v, t, rfl, hC', Or.inr ⟨hk, hcur, by rw [← hm]; exact hcur,
                                    Or.inr ⟨h08,
                                      fun m => { m with map_d := some v }, fun m => ⟨rfl, rfl⟩, by rw [← hm]⟩⟩⟩
                                · rw [if_neg h11] at hm
                                  by_cases h12 : (lower k0 = ['m', 'a', 'p', '_', 'b', 'u', 'm', 'p'] || lower k0 = ['b', 'u', 'm', 'p'])
                                  · rw [if_pos h12] at hm
                                    rw [Except.ok.injEq] at hm
                                    exact Or.inr ⟨k0, v, t, rfl, hC', Or.inr ⟨hk, hcur, by rw [← hm]; exact hcur,
                                      Or.inr ⟨h08,
                                        fun m => { m with map_bump := some v }, fun m => ⟨rfl, rfl⟩, by rw [← hm]⟩⟩⟩
                                  · rw [if_neg h12] at hm
                                    rw [Except.ok.injEq] at hm
                                    exact Or.inr ⟨k0, v, t, rfl, hC', Or.inr ⟨hk, hcur, by rw [← hm]; exact hcur,
                                      Or.inr ⟨h08,
                                        fun m => { m with extra_props := dictUpd (lower k0) v m.extra_props },
                                        fun m => ⟨rfl, rfl⟩, by rw [← hm]⟩⟩⟩
          · have hcur' := bool_eq_false hcur
            rw [if_neg hk, if_neg hcur] at hm
            rw [Except.ok.injEq] at hm
            exact Or.inl ⟨by rw [← hm], by rw [← hm],
              Or.inr ⟨k0, v, t, rfl, hk, hcur'⟩⟩

/-- One line preserves the invariant between the two MTL passes, provided
its first token does not strictly extend `newmtl` or `map_kd`. -/
lemma mtl_line_agree {s : MTL} {st : List (List Char × List Char) × Option (List Char)}
    {l : List Char} {s₁ : MTL} {st₁ : List (List Char × List Char) × Option (List Char)}
    (hm : parseMtlLine s l = .ok s₁) (hf : mtlFileLine st l = .ok st₁)
    (hg : goodLineB l = true) (hInv : mtlInv s st) : mtlInv s₁ st₁ := by
  obtain ⟨hdict, hcases⟩ := hInv
  obtain ⟨hgood1, hgood2⟩ := goodLineB_spec hg
  rcases parseMtlLine_ok_cases hm with
    ⟨hmat, hcur, hbranch⟩ | ⟨k0, v, t, hs, _, hbr⟩
  · -- materials and hasCurrent unchanged; the file pass skips this line
    have hskip : mtlFileLine st l = .ok st := by
      rcases hbranch with hC | ⟨k0, v, t, hs, hk, hcurF⟩
      · obtain ⟨p1, p2⟩ := pref_false_of_blank hC
        exact mtlFileLine_skip p1 (by rw [p2]; simp)
      · have p1 : "newmtl".data.isPrefixOf (lower (strip l)) = false :=
          pref_false_of_key_ne hs (by decide) hk hgood1
        rcases hcases with ⟨_, _, hnone⟩ | ⟨hcT, _⟩
        · exact mtlFileLine_skip p1 (by rw [hnone]; simp)
        · rw [hcurF] at hcT
          exact Bool.noConfusion hcT
    injection hf.symm.trans hskip with hst
    refine ⟨by rw [hst, hdict, hmat], ?_⟩
    rcases hcases with ⟨hc0, hm0, hn0⟩ | ⟨hc1, i, lm, hml, hs2⟩
    · exact Or.inl ⟨by rw [hcur, hc0], by rw [hmat, hm0], by rw [hst, hn0]⟩
    · exact Or.inr ⟨by rw [hcur, hc1], i, lm, by rw [hmat, hml], by rw [hst, hs2]⟩
  · rcases hbr with ⟨hknew, hmat, hcur1⟩ | ⟨hknew, hcurT, hcur1, hsub⟩
    · -- `newmtl` line
      have p1 : "newmtl".data.isPrefixOf (lower (strip l)) = true :=
        pref_true_of_key_eq hs hknew
      injection hf.symm.trans (mtlFileLine_newmtl p1 hs) with hst
      constructor
      · rw [hst, hmat, matToTex_append]
        exact hdict
      · exact Or.inr ⟨hcur1, s.materials, { name := v }, by rw [hmat], by rw [hst]⟩
    · -- a directive with a current material
      rcases hcases with ⟨hc0, _, _⟩ | ⟨_, i, lm, hml, hs2⟩
      · rw [hcurT] at hc0
        exact Bool.noConfusion hc0
      · have p1 : "newmtl".data.isPrefixOf (lower (strip l)) = false :=
          pref_false_of_key_ne hs (by decide) hknew hgood1
        rcases hsub with ⟨hkd, hmat⟩ | ⟨hkd, f, hfpres, hmat⟩
        · -- `map_kd`: both sides update the entry of the current name
          have p2 : "map_kd".data.isPrefixOf (lower (strip l)) = true :=
            pref_true_of_key_eq hs hkd
          injection hf.symm.trans (mtlFileLine_mapkd p1 hs2 p2 hs) with hst
          constructor
          · rw [hst, hdict, hmat, hml, updLast_append, matToTex_append, matToTex_append]
            cases hlm : lm.map_Kd with
            | some p => exact dictUpd_dictUpd_same lm.name v p (matToTex i)
            | none => rfl
          · exact Or.inr ⟨hcur1, i, { lm with map_Kd := some v },
              by rw [hmat, hml, updLast_append], by rw [hst, hs2]⟩
        · -- any other directive: the mapping is untouched on both sides
          have p2 : "map_kd".data.isPrefixOf (lower (strip l)) = false :=
            pref_false_of_key_ne hs (by decide) hkd hgood2
          injection hf.symm.trans (mtlFileLine_skip p1 (by rw [p2]; simp)) with hst
          constructor
          · rw [hst, hdict, hmat, hml, updLast_append, matToTex_append, matToTex_append,
              (hfpres lm).1, (hfpres lm).2]
          · exact Or.inr ⟨hcur1, i, f lm, by rw [hmat, hml, updLast_append],
              by rw [hst, hs2, (hfpres lm).1]⟩

lemma mtl_lines_agree (lines : List (List Char)) :
    ∀ (s : MTL) (st : List (List Char × List Char) × Option (List Char)) (m : MTL)
      (st' : List (List Char × List Char) × Option (List Char)),
      parseMtlLines s lines = .ok m → mtlFileLines st lines = .ok st' →
      (∀ l ∈ lines, goodLineB l = true) → mtlInv s st → mtlInv m st' := by
  induction lines with
  | nil =>
    intro s st m st' hm hf _ hInv
    simp only [parseMtlLines] at hm
    simp only [mtlFileLines] at hf
    rw [Except.ok.injEq] at hm hf
    rw [← hm, ← hf]
    exact hInv
  | cons l ls ih =>
    intro s st m st' hm hf hg hInv
    simp only [parseMtlLines] at hm
    simp only [mtlFileLines] at hf
    cases hm1 : parseMtlLine s l with
    | error e =>
      rw [hm1] at hm
      exact Except.noConfusion hm
    | ok s₁ =>
      rw [hm1] at hm
      cases hf1 : mtlFileLine st l with
      | error e =>
        rw [hf1] at hf
        exact Except.noConfusion hf
      | ok st₁ =>
        rw [hf1] at hf
        exact ih s₁ st₁ m st' hm hf (fun x hx => hg x (List.mem_cons_of_mem l hx))
          (mtl_line_agree hm1 hf1 (hg l (List.mem_cons_self l ls)) hInv)

/-- C9 (counterexample to the claim as stated): both routines succeed on
`newmtlx A` + `map_kd t.png`, but `parse_mtl_file`'s `startswith("newmtl")`
accepts the unknown directive `newmtlx` as a material start while
`parse_mtl`'s exact key match does not — the returned mapping has an
entry for `A` that the mapping derived from `parse_mtl` lacks. -/
theorem c9_prefix_vs_exact_counterexample :
    parse_mtl_file "newmtlx A\nmap_kd t.png\n".data = .ok [("A".data, "t.png".data)] ∧
      (parse_mtl "newmtlx A\nmap_kd t.png\n".data).map (fun m => matToTex m.materials) =
        .ok [] ∧
      ([("A".data, "t.png".data)] : List (List Char × List Char)) ≠ [] := by decide

/-- C9 (amended): whenever both MTL passes succeed and no line's first
token (lowercased) strictly extends `newmtl` or `map_kd`, the dict
returned by `parse_mtl_file` is exactly the name-to-diffuse-map mapping
derived from `parse_mtl`'s materials (each material's `map_Kd`, later
entries winning for duplicate names, names with no `map_Kd` omitted). -/
theorem c9_mapping_agreement (text : List Char) (m : MTL)
    (d : List (List Char × List Char))
    (hm : parse_mtl text = .ok m) (hd : parse_mtl_file text = .ok d)
    (hg : goodMtlKeys text = true) :
    d = matToTex m.materials := by
  unfold parse_mtl_file at hd
  cases hfl : mtlFileLines ([], none) (linesKeepEnds text) with
  | error e =>
    rw [hfl] at hd
    exact Except.noConfusion hd
  | ok st' =>
    rw [hfl] at hd
    rw [Except.ok.injEq] at hd
    have hInv0 : mtlInv {} ([], none) := ⟨rfl, Or.inl ⟨rfl, rfl, rfl⟩⟩
    obtain ⟨hdict, _⟩ := mtl_lines_agree (linesKeepEnds text) {} ([], none) m st' hm hfl
      (fun x hx => List.all_eq_true.mp hg x hx) hInv0
    rw [← hd, hdict]

/-- Witness for C9 (amended) at `newmtl A` + `map_kd t.png`. -/
theorem c9_mapping_agreement_witness :
    parse_mtl "newmtl A\nmap_kd t.png\n".data =
        .ok (okMTL (parse_mtl "newmtl A\nmap_kd t.png\n".data)) ∧
      parse_mtl_file "newmtl A\nmap_kd t.png\n".data =
        .ok (okDict (parse_mtl_file "newmtl A\nmap_kd t.png\n".data)) ∧
      goodMtlKeys "newmtl A\nmap_kd t.png\n".data = true ∧
      okDict (parse_mtl_file "newmtl A\nmap_kd t.png\n".data) =
        matToTex (okMTL (parse_mtl "newmtl A\nmap_kd t.png\n".data)).materials :=
  ⟨by decide, by decide, by decide,
    c9_mapping_agreement "newmtl A\nmap_kd t.png\n".data
      (okMTL (parse_mtl "newmtl A\nmap_kd t.png\n".data))
      (okDict (parse_mtl_file "newmtl A\nmap_kd t.png\n".data))
      (by decide) (by decide) (by decide)⟩

end Bake
